import Mathlib

/-!
Verification of the DeltaDOM tree-diff/patch engine.

This file gives a shallow embedding of the DeltaDOM source
(`src/utils/NodeUtils.js`, `src/comparison/NodeComparator.js`,
`src/comparison/StructuralComparator.js`, `src/core/Differ.js`,
`src/core/Patcher.js`) and proves properties of the embedded code.

Modelling conventions:
- DOM nodes are `DNode` values carrying a numeric identity `nid`
  (standing for JavaScript object identity).  `cloneNode(true)` is a
  deep copy with fresh identity; freshness is modelled by mapping every
  identity `n` to the odd number `2*n+1`, so clone identities are
  disjoint from the even identities a caller uses for live nodes.
- JavaScript numbers that hold small non-negative integers are `Nat`.
  The single floating-point expression in the source
  (`differences > minLength * 0.8`) is embedded as
  `differences * 5 > minLength * 4`, which agrees with the IEEE-754
  evaluation at every pair of naturals (the float `minLength * 0.8`
  always lies in `[4k, 4k+1)` when `minLength = 5k + r`).
- Mutually recursive traversals take an explicit fuel argument that is
  decremented at each descent; every theorem below either holds for all
  fuel values or is stated through a wrapper that supplies fuel larger
  than the tree size, so the exhaustion branch is unreachable.
- Stateful patching code becomes explicit state passing; `console.error`
  logging becomes an explicit log component in the result.
-/

/-! ## Decimal rendering of naturals (JavaScript template `${n}`) -/

/-- Little-endian decimal digits of `n`, with explicit fuel (the fuel
`n + 1` always suffices). -/
def digitsAux : Nat → Nat → List Nat
  | 0, _ => []
  | fuel + 1, n => if n < 10 then [n] else n % 10 :: digitsAux fuel (n / 10)

/-- Little-endian decimal digits of `n`. -/
def digitsRev (n : Nat) : List Nat := digitsAux (n + 1) n

/-- Value of a little-endian digit list. -/
def digitsVal : List Nat → Nat
  | [] => 0
  | d :: ds => d + 10 * digitsVal ds

/-- Character for one decimal digit. -/
def charOfDigit (d : Nat) : Char := Char.ofNat (48 + d)

/-- Decimal digit encoded by a character. -/
def digitOfChar (c : Char) : Nat := c.toNat - 48

/-- Decimal string for a natural number, as JavaScript `${n}` renders it. -/
def natRepr (n : Nat) : String := String.mk ((digitsRev n).reverse.map charOfDigit)

/-- Decoder for `natRepr`, used to prove injectivity. -/
def natReprVal (s : String) : Nat := digitsVal ((s.data.map digitOfChar).reverse)

theorem digitsAux_val : ∀ fuel n, n < fuel → digitsVal (digitsAux fuel n) = n := by
  intro fuel
  induction fuel with
  | zero => intro n h; omega
  | succ f ih =>
    intro n h
    by_cases h10 : n < 10
    · simp [digitsAux, h10, digitsVal]
    · have hn : 10 ≤ n := by omega
      have hdiv : n / 10 < f := by
        have h1 : n / 10 < n := Nat.div_lt_self (by omega) (by omega)
        omega
      simp only [digitsAux, if_neg h10, digitsVal, ih _ hdiv]
      omega

theorem digitsAux_lt_ten : ∀ fuel n d, d ∈ digitsAux fuel n → d < 10 := by
  intro fuel
  induction fuel with
  | zero => intro n d h; simp [digitsAux] at h
  | succ f ih =>
    intro n d h
    by_cases h10 : n < 10
    · simp [digitsAux, h10] at h; omega
    · simp only [digitsAux, if_neg h10, List.mem_cons] at h
      rcases h with h | h
      · omega
      · exact ih _ _ h

theorem digitOfChar_charOfDigit {d : Nat} (h : d < 10) :
    digitOfChar (charOfDigit d) = d := by
  interval_cases d <;> decide

theorem natReprVal_natRepr (n : Nat) : natReprVal (natRepr n) = n := by
  have hmap : ((digitsRev n).reverse.map charOfDigit).map digitOfChar
      = (digitsRev n).reverse := by
    have : ∀ d ∈ (digitsRev n).reverse, (digitOfChar ∘ charOfDigit) d = d := by
      intro d hd
      have : d < 10 := digitsAux_lt_ten _ _ _ (List.mem_reverse.mp hd)
      simpa using digitOfChar_charOfDigit this
    calc ((digitsRev n).reverse.map charOfDigit).map digitOfChar
        = (digitsRev n).reverse.map (digitOfChar ∘ charOfDigit) := by
          rw [List.map_map]
      _ = (digitsRev n).reverse.map id := List.map_congr_left this
      _ = (digitsRev n).reverse := List.map_id _
  simp only [natReprVal, natRepr, hmap, List.reverse_reverse]
  exact digitsAux_val _ _ (Nat.lt_succ_self n)

theorem natRepr_injective : Function.Injective natRepr := by
  intro a b h
  have := congrArg natReprVal h
  simpa [natReprVal_natRepr] using this

/-! ## Small JavaScript-semantics helpers -/

/-- JavaScript `a.includes(b)` on strings. -/
def strContains (s t : String) : Bool :=
  s.data.tails.any fun l => t.data.isPrefixOf l

/-- ASCII-exact `toLowerCase`, written over the character list so that it
evaluates inside the kernel. -/
def strToLower (s : String) : String := String.mk (s.data.map Char.toLower)

/-- JavaScript `trim`, written over the character list. -/
def strTrim (s : String) : String :=
  String.mk ((s.data.dropWhile Char.isWhitespace).reverse.dropWhile Char.isWhitespace).reverse

/-- JavaScript `startsWith`, written over the character list. -/
def strStartsWith (s pre : String) : Bool := pre.data.isPrefixOf s.data

/-- JavaScript `substring(0, n)`, written over the character list. -/
def strTake (s : String) (n : Nat) : String := String.mk (s.data.take n)

/-- JavaScript `x || y` where `x : Option String` models a string that may
be `null`/`undefined`; the empty string is falsy. -/
def jsOrStr (a b : Option String) : Option String :=
  match a with
  | some s => if s = "" then b else some s
  | none => b

/-- Truthiness of an optional string (JavaScript `if (s)`). -/
def strTruthy : Option String → Bool
  | some s => s ≠ ""
  | none => false

/-- Insertion-order deduplication: iterating a JavaScript `Set` yields
each element once, at its first insertion position. -/
def insertionOrderKeys (l : List String) : List String :=
  l.foldl (fun acc k => if k ∈ acc then acc else acc ++ [k]) []

/-! ## The DOM node model -/

/-- Host DOM node.  `nid` models JavaScript object identity.  Only text
and element nodes occur in the source's data flow. -/
inductive DNode where
  | text (nid : Nat) (content : String)
  | element (nid : Nat) (tag : String) (attrs : List (String × String)) (children : List DNode)

/-- Node identity. -/
def DNode.nid : DNode → Nat
  | .text i _ => i
  | .element i _ _ _ => i

/-- DOM `nodeType` (`Node.ELEMENT_NODE = 1`, `Node.TEXT_NODE = 3`). -/
def DNode.nodeType : DNode → Nat
  | .text _ _ => 3
  | .element _ _ _ _ => 1

/-- DOM `tagName`; `undefined` on text nodes. -/
def DNode.tagOpt : DNode → Option String
  | .text _ _ => none
  | .element _ t _ _ => some t

/-- Children list; empty for text nodes. -/
def DNode.childNodes : DNode → List DNode
  | .text _ _ => []
  | .element _ _ _ cs => cs

/-- Attribute list; empty for text nodes. -/
def DNode.attrList : DNode → List (String × String)
  | .text _ _ => []
  | .element _ _ a _ => a

/-- First bound value of an attribute name (DOM attribute names are
unique on an element, so first-match lookup is exact). -/
def attrLookup (attrs : List (String × String)) (name : String) : Option String :=
  match attrs.find? (fun p => p.1 = name) with
  | some p => some p.2
  | none => none

/-- DOM `getAttribute` (also models `element.getAttribute?.(name)`:
`none` on text nodes). -/
def DNode.getAttr : DNode → String → Option String
  | .text _ _, _ => none
  | .element _ _ a _, name => attrLookup a name

/-- DOM `setAttribute` on an attribute list. -/
def attrSet (attrs : List (String × String)) (name v : String) : List (String × String) :=
  if (attrs.find? (fun p => p.1 = name)).isSome then
    attrs.map (fun p => if p.1 = name then (name, v) else p)
  else attrs ++ [(name, v)]

/-- DOM `removeAttribute` on an attribute list. -/
def attrRemove (attrs : List (String × String)) (name : String) : List (String × String) :=
  attrs.filter (fun p => p.1 ≠ name)

mutual
/-- DOM `textContent`: concatenated text content of the subtree. -/
def DNode.textContent : DNode → String
  | .text _ c => c
  | .element _ _ _ cs => textContentL cs

/-- Concatenated `textContent` of a node list. -/
def textContentL : List DNode → String
  | [] => ""
  | c :: cs => c.textContent ++ textContentL cs
end

mutual
/-- Size measure used for fuel bounds. -/
def DNode.nsize : DNode → Nat
  | .text _ _ => 1
  | .element _ _ _ cs => 1 + nsizeL cs

/-- Size of a node list. -/
def nsizeL : List DNode → Nat
  | [] => 0
  | c :: cs => c.nsize + nsizeL cs
end

/-- Size of an optional node (JavaScript `null` has size 0). -/
def nsizeO : Option DNode → Nat
  | none => 0
  | some n => n.nsize

theorem nsize_pos : ∀ n : DNode, 0 < n.nsize := by
  intro n
  cases n <;> simp [DNode.nsize]

theorem nsize_mem_le : ∀ (cs : List DNode) (c : DNode), c ∈ cs → c.nsize ≤ nsizeL cs := by
  intro cs
  induction cs with
  | nil => intro c h; simp at h
  | cons a l ih =>
    intro c h
    rcases List.mem_cons.mp h with h | h
    · subst h; simp only [nsizeL]; omega
    · have := ih c h
      simp only [nsizeL]; omega

theorem nsize_child_lt {nid : Nat} {tag : String} {attrs : List (String × String)}
    {cs : List DNode} {c : DNode} (h : c ∈ cs) :
    c.nsize < (DNode.element nid tag attrs cs).nsize := by
  have := nsize_mem_le cs c h
  simp only [DNode.nsize]
  omega

mutual
/-- Model of `cloneNode(true)`: a deep copy with fresh object identity,
modelled by sending every identity into the odd numbers. -/
def cloneNode : DNode → DNode
  | .text i c => .text (2 * i + 1) c
  | .element i t a cs => .element (2 * i + 1) t a (cloneNodeL cs)

/-- Clone of a node list. -/
def cloneNodeL : List DNode → List DNode
  | [] => []
  | c :: cs => cloneNode c :: cloneNodeL cs
end

/-! ## NodeUtils (`src/utils/NodeUtils.js`) -/

/-- Truthy `src` attribute starting with `blob:` or `data:` (the `img`
case inside `isHeavyElement`). -/
def srcIsBlobOrData : Option String → Prop
  | some src => src ≠ "" ∧ (strStartsWith src "blob:" ∨ strStartsWith src "data:")
  | none => False

instance : DecidablePred srcIsBlobOrData := by
  intro o
  cases o <;> simp [srcIsBlobOrData] <;> infer_instance

/-- Embeds `NodeUtils.isHeavyElement`.  The argument is optional because
the source calls it on possibly-`undefined` values. -/
def NodeUtils.isHeavyElement (element : Option DNode) : Bool :=
  match element with
  | none => false
  | some (.text _ _) => false
  | some (.element _ tag attrs _) =>
    let tagName := strToLower tag
    if tagName = "iframe" then true
    else if tagName = "video" then true
    else if tagName = "img" ∧ srcIsBlobOrData (attrLookup attrs "src") then true
    else if attrLookup attrs "data-immutable" = some "true" then true
    else if attrLookup attrs "data-processed-media" = some "true" then true
    else false

/-- Embeds `NodeUtils.isLocalFilePath`. -/
def NodeUtils.isLocalFilePath (url : String) : Bool :=
  if strStartsWith url "file://" then true
  else if ¬ strStartsWith url "http" ∧ ¬ strStartsWith url "blob:" ∧ ¬ strStartsWith url "data:"
      ∧ ¬ strStartsWith url "//" ∧ ¬ strStartsWith url "#" then true
  else false

/-- CSS tag-name test for the `img, video, iframe` selector. -/
def isMediaTag (t : String) : Bool :=
  strToLower t = "img" ∨ strToLower t = "video" ∨ strToLower t = "iframe"

mutual
/-- Whether a node or any of its descendants is a media element. -/
def anyMediaNode : DNode → Bool
  | .text _ _ => false
  | .element _ t _ cs => isMediaTag t ∨ anyMediaNodeL cs

/-- `anyMediaNode` over a list of subtrees. -/
def anyMediaNodeL : List DNode → Bool
  | [] => false
  | c :: cs => anyMediaNode c ∨ anyMediaNodeL cs
end

mutual
/-- Matches the `pre code` selector below a node: a `code` element with a
`pre` ancestor inside the scanned subtree.  `underPre` records whether a
`pre` ancestor has been passed. -/
def preCodeNode (underPre : Bool) : DNode → Bool
  | .text _ _ => false
  | .element _ t _ cs =>
    (underPre ∧ strToLower t = "code") ∨ preCodeNodeL (underPre ∨ strToLower t = "pre") cs

/-- `preCodeNode` over a list of subtrees. -/
def preCodeNodeL (underPre : Bool) : List DNode → Bool
  | [] => false
  | c :: cs => preCodeNode underPre c ∨ preCodeNodeL underPre cs
end

/-- Embeds `NodeUtils.needsMediaProcessing`.  `querySelector` searches
strict descendants. -/
def NodeUtils.needsMediaProcessing (node : DNode) : Bool :=
  match node with
  | .text _ _ => false
  | .element _ t _ cs =>
    if isMediaTag t then true
    else if anyMediaNodeL cs then true
    else if preCodeNodeL (strToLower t = "pre") cs then true
    else false

/-- One step of the attribute-removal loop of
`NodeUtils.updateElementAttributes`.  The source iterates the live
`NamedNodeMap` while removing from it, so removing the attribute at the
iterator's position makes the iterator skip the following one; the fuel
only bounds the loop (`attrs.length + 1` always suffices). -/
def staleAttrLoop (tpl : DNode) : Nat → List (String × String) → Nat → List (String × String)
  | 0, attrs, _ => attrs
  | fuel + 1, attrs, i =>
    match attrs[i]? with
    | none => attrs
    | some a =>
      if (tpl.getAttr a.1).isSome then staleAttrLoop tpl fuel attrs (i + 1)
      else staleAttrLoop tpl fuel (attrs.eraseIdx i) (i + 1)

/-- Embeds `NodeUtils.updateElementAttributes`, as a function from the
mutated element to its updated value.  Both arguments are defined nodes
(the source throws before entry when called on `undefined`; that throw
is modelled at the call site in `handleUpdate`). -/
def NodeUtils.updateElementAttributes (oldElement newElement : DNode) : DNode :=
  match oldElement, newElement with
  | .element i t a cs, .element _ _ na _ =>
    if NodeUtils.isHeavyElement (some oldElement) then oldElement
    else
      let tpl : DNode := .element 0 "" na []
      let kept := staleAttrLoop tpl (a.length + 1) a 0
      let updated := na.foldl
        (fun acc p => if attrLookup acc p.1 ≠ some p.2 then attrSet acc p.1 p.2 else acc) kept
      .element i t updated cs
  | _, _ => oldElement

/-! ## NodeComparator, host-node side (`src/comparison/NodeComparator.js`) -/

/-- One attribute difference reported by `compareAttributes`; an absent
`oldValue`/`newValue` encodes an added/removed attribute. -/
structure AttrChange where
  name : String
  oldValue : Option String
  newValue : Option String
  deriving DecidableEq, Repr

/-- Embeds `NodeComparator.childrenMatch` with the heavy-element
predicate instantiated to `NodeUtils.isHeavyElement`, as every caller in
the source does. -/
def NodeComparator.childrenMatch (oldChild newChild : Option DNode) : Bool :=
  match oldChild, newChild with
  | none, _ => false
  | _, none => false
  | some o, some n =>
    if NodeUtils.isHeavyElement (some o) ∧ NodeUtils.isHeavyElement (some n) then
      let oldSrc := jsOrStr (o.getAttr "src") (o.getAttr "data-original-src")
      let newSrc := jsOrStr (n.getAttr "src") (n.getAttr "data-original-src")
      strTruthy oldSrc ∧ strTruthy newSrc ∧ oldSrc = newSrc
    else if o.nodeType = n.nodeType then
      match o, n with
      | .text _ oc, .text _ nc => oc = nc
      | .element _ ot _ _, .element _ nt _ _ =>
        if ot = nt then strTrim o.textContent = strTrim n.textContent else false
      | _, _ => false
    else false

/-- Embeds `NodeComparator.compareAttributes`.  DOM attribute names are
unique per element, so first-match lookup coincides with the `Map` the
source builds. -/
def NodeComparator.compareAttributes (oldElement newElement : DNode) : List AttrChange :=
  let oldA := oldElement.attrList
  let newA := newElement.attrList
  let allKeys := insertionOrderKeys (oldA.map (·.1) ++ newA.map (·.1))
  allKeys.filterMap fun k =>
    let ov := attrLookup oldA k
    let nv := attrLookup newA k
    if ov ≠ nv then some ⟨k, ov, nv⟩ else none

/-! ## StructuralComparator (`src/comparison/StructuralComparator.js`) -/

/-- Result of `isSimpleInsertionOrDeletion` (the source returns `false`
or an object; the absent case is `none`). -/
inductive StructChange where
  | insertion (position count : Nat)
  | deletion (position count : Nat)
  deriving DecidableEq, Repr

/-- Embeds `StructuralComparator.testInsertionAtPosition`.  Out-of-range
indexing yields `none`, i.e. JavaScript `undefined`, which
`childrenMatch` rejects. -/
def StructuralComparator.testInsertionAtPosition
    (oldChildren newChildren : List DNode) (insertPos insertionCount : Nat) : Bool :=
  ((List.range insertPos).all fun i =>
    NodeComparator.childrenMatch oldChildren[i]? newChildren[i]?) ∧
  ((List.range (oldChildren.length - insertPos)).all fun j =>
    NodeComparator.childrenMatch oldChildren[insertPos + j]? newChildren[insertPos + j + insertionCount]?)

/-- Embeds `StructuralComparator.testDeletionAtPosition`. -/
def StructuralComparator.testDeletionAtPosition
    (oldChildren newChildren : List DNode) (deletePos deletionCount : Nat) : Bool :=
  ((List.range deletePos).all fun i =>
    NodeComparator.childrenMatch oldChildren[i]? newChildren[i]?) ∧
  ((List.range (newChildren.length - deletePos)).all fun j =>
    NodeComparator.childrenMatch oldChildren[deletePos + j + deletionCount]? newChildren[deletePos + j]?)

/-- Ascending scan from `p` with `fuel` positions left to try — the
shape of every `for (pos = 0; pos <= n; pos++)` loop in the source. -/
def firstPosAux (test : Nat → Bool) : Nat → Nat → Option Nat
  | 0, _ => none
  | fuel + 1, p => if test p then some p else firstPosAux test fuel (p + 1)

/-- First position in `0..bound` (inclusive) passing `test`, scanning in
ascending order. -/
def firstPassingPos (test : Nat → Bool) (bound : Nat) : Option Nat :=
  firstPosAux test (bound + 1) 0

/-- Embeds `StructuralComparator.checkSimpleInsertionAnywhere`. -/
def StructuralComparator.checkSimpleInsertionAnywhere
    (oldChildren newChildren : List DNode) : Option StructChange :=
  (firstPassingPos
    (fun p => StructuralComparator.testInsertionAtPosition oldChildren newChildren p 1)
    oldChildren.length).map (fun p => .insertion p 1)

/-- Embeds `StructuralComparator.checkMultipleInsertionsAnywhere`. -/
def StructuralComparator.checkMultipleInsertionsAnywhere
    (oldChildren newChildren : List DNode) (insertionCount : Nat) : Option StructChange :=
  (firstPassingPos
    (fun p => StructuralComparator.testInsertionAtPosition oldChildren newChildren p insertionCount)
    oldChildren.length).map (fun p => .insertion p insertionCount)

/-- Embeds `StructuralComparator.checkSimpleDeletionAnywhere`. -/
def StructuralComparator.checkSimpleDeletionAnywhere
    (oldChildren newChildren : List DNode) : Option StructChange :=
  (firstPassingPos
    (fun p => StructuralComparator.testDeletionAtPosition oldChildren newChildren p 1)
    newChildren.length).map (fun p => .deletion p 1)

/-- Embeds `StructuralComparator.checkMultipleDeletionsAnywhere`. -/
def StructuralComparator.checkMultipleDeletionsAnywhere
    (oldChildren newChildren : List DNode) (deletionCount : Nat) : Option StructChange :=
  (firstPassingPos
    (fun p => StructuralComparator.testDeletionAtPosition oldChildren newChildren p deletionCount)
    newChildren.length).map (fun p => .deletion p deletionCount)

/-- Embeds `StructuralComparator.isSimpleInsertionOrDeletion`. -/
def StructuralComparator.isSimpleInsertionOrDeletion
    (oldChildren newChildren : List DNode) : Option StructChange :=
  if newChildren.length = oldChildren.length + 1 then
    StructuralComparator.checkSimpleInsertionAnywhere oldChildren newChildren
  else if oldChildren.length = newChildren.length + 1 then
    StructuralComparator.checkSimpleDeletionAnywhere oldChildren newChildren
  else if newChildren.length > oldChildren.length then
    let insertionCount := newChildren.length - oldChildren.length
    if insertionCount ≤ 5 then
      StructuralComparator.checkMultipleInsertionsAnywhere oldChildren newChildren insertionCount
    else none
  else if oldChildren.length > newChildren.length then
    let deletionCount := oldChildren.length - newChildren.length
    if deletionCount ≤ 5 then
      StructuralComparator.checkMultipleDeletionsAnywhere oldChildren newChildren deletionCount
    else none
  else none

/-- Significant-difference test of one index-aligned pair inside
`shouldReplaceAllChildren`. -/
def significantDiff (oldChild newChild : DNode) : Bool :=
  if oldChild.nodeType ≠ newChild.nodeType then true
  else if oldChild.nodeType = 1 ∧ newChild.nodeType = 1 ∧ oldChild.tagOpt ≠ newChild.tagOpt then
    true
  else if oldChild.nodeType = 3 ∧ newChild.nodeType = 3 then
    let oldText := strTrim oldChild.textContent
    let newText := strTrim newChild.textContent
    oldText ≠ "" ∧ newText ≠ "" ∧ oldText ≠ newText ∧
      ¬ strContains oldText (strTake newText 10) ∧ ¬ strContains newText (strTake oldText 10)
  else false

/-- Embeds `StructuralComparator.shouldReplaceAllChildren`.  The final
float comparison `differences > minLength * 0.8` is embedded exactly as
`differences * 5 > minLength * 4` (see the header note). -/
def StructuralComparator.shouldReplaceAllChildren
    (oldChildren newChildren : List DNode) : Bool :=
  let lengthDiff := max oldChildren.length newChildren.length
    - min oldChildren.length newChildren.length
  if lengthDiff > 10 then true
  else
    let oldHeavyCount := (oldChildren.filter (fun c => NodeUtils.isHeavyElement (some c))).length
    let newHeavyCount := (newChildren.filter (fun c => NodeUtils.isHeavyElement (some c))).length
    if oldHeavyCount > 0 ∨ newHeavyCount > 0 then false
    else
      let minLength := min oldChildren.length newChildren.length
      let differences := (oldChildren.zip newChildren).countP fun p => significantDiff p.1 p.2
      differences * 5 > minLength * 4

/-! ## Change operations (the Differ output / `applyChanges` input) -/

/-- Change operations produced by the Differ.  Fields that hold
references into the live tree are `Option DNode` because the public
`patch` API also accepts caller-built lists where they may be `null`;
the Differ itself always fills them with `some`. -/
inductive Change where
  | insert (path : String) (element : DNode)
  | remove (path : String) (element : Option DNode)
  | replace (path : String) (oldElement : Option DNode) (newElement : DNode)
  | updateText (path : String) (element : Option DNode) (oldContent newContent : String)
  | updateAttributes (path : String) (element : Option DNode) (changes : List AttrChange)
  | insertChild (path : String) (parent : Option DNode) (child : DNode) (index : Nat)
  | removeChild (path : String) (parent : Option DNode) (child : Option DNode) (index : Nat)

/-! ## Differ (`src/core/Differ.js`) -/

/-- Embeds `Differ.shouldSkipComparison`.  The source dereferences both
arguments, and every call site passes in-range children, so the
`none` case is unreachable; it is mapped to `false` (do not skip). -/
def Differ.shouldSkipComparison (oldChild newChild : Option DNode) : Bool :=
  match oldChild, newChild with
  | some o, some n =>
    if (NodeUtils.isHeavyElement (some o) ∧ NodeUtils.isHeavyElement (some n)) ∧
        (let oldSrc := jsOrStr (o.getAttr "src") (o.getAttr "data-original-src")
         let newSrc := jsOrStr (n.getAttr "src") (n.getAttr "data-original-src")
         strTruthy oldSrc ∧ strTruthy newSrc ∧ oldSrc = newSrc) then true
    else if o.nodeType = n.nodeType ∧ o.tagOpt = n.tagOpt ∧
        strTrim o.textContent = strTrim n.textContent then true
    else false
  | _, _ => false

mutual

/-- Embeds `Differ.compareElements`.  The first argument is fuel,
consumed at every call between the mutually recursive functions;
`Differ.compareElements` below supplies enough for any input, making
every exhaustion branch unreachable. -/
def Differ.compareElementsF : Nat → Option DNode → Option DNode → String → List Change
  | 0, _, _, _ => []
  | _ + 1, none, none, _ => []
  | _ + 1, none, some n, path => [.insert path (cloneNode n)]
  | _ + 1, some o, none, path => [.remove path (some o)]
  | fuel + 1, some o, some n, path =>
    if o.nodeType ≠ n.nodeType then [.replace path (some o) (cloneNode n)]
    else
      match o, n with
      | .text _ oc, .text _ nc =>
        if oc ≠ nc then [.updateText path (some (.text o.nid oc)) oc nc] else []
      | .element _ oTag _ _, .element _ nTag _ _ =>
        if oTag ≠ nTag then [.replace path (some o) (cloneNode n)]
        else if NodeUtils.isHeavyElement (some o) then []
        else
          let elementPath := path ++ (if path ≠ "" then " > " else "") ++ strToLower oTag
          let attrChanges := NodeComparator.compareAttributes o n
          (if attrChanges ≠ [] then [.updateAttributes elementPath (some o) attrChanges]
           else []) ++ Differ.compareChildrenF fuel o n elementPath
      | _, _ => []
  termination_by structural fuel _ _ _ => fuel

/-- Embeds `Differ.compareChildren`. -/
def Differ.compareChildrenF : Nat → DNode → DNode → String → List Change
  | 0, _, _, _ => []
  | fuel + 1, oldElement, newElement, path =>
    let oldChildren := oldElement.childNodes
    let newChildren := newElement.childNodes
    match StructuralComparator.isSimpleInsertionOrDeletion oldChildren newChildren with
    | some structuralChange =>
      Differ.handleStructuralChangeF fuel oldChildren newChildren oldElement path
        structuralChange
    | none =>
      if StructuralComparator.shouldReplaceAllChildren oldChildren newChildren then
        ((List.range oldChildren.length).reverse.map fun i =>
          Change.removeChild path (some oldElement) oldChildren[i]? i) ++
        ((List.range newChildren.length).filterMap fun i =>
          (newChildren[i]?).map fun c =>
            Change.insertChild path (some oldElement) (cloneNode c) i)
      else
        (List.range (max oldChildren.length newChildren.length)).flatMap fun i =>
          match oldChildren[i]?, newChildren[i]? with
          | none, some newChild =>
            [Change.insertChild path (some oldElement) (cloneNode newChild) i]
          | some oldChild, none =>
            [Change.removeChild path (some oldElement) (some oldChild) i]
          | some oldChild, some newChild =>
            Differ.compareElementsF fuel (some oldChild) (some newChild)
              (path ++ "[" ++ natRepr i ++ "]")
          | none, none => []
  termination_by structural fuel _ _ _ => fuel

/-- Embeds `Differ.handleStructuralChange`. -/
def Differ.handleStructuralChangeF :
    Nat → List DNode → List DNode → DNode → String → StructChange → List Change
  | 0, _, _, _, _, _ => []
  | fuel + 1, oldChildren, newChildren, parent, path, changeInfo =>
    match changeInfo with
    | .insertion insertPos count =>
      ((List.range count).filterMap fun i =>
        (newChildren[insertPos + i]?).map fun newChild =>
          Change.insertChild path (some parent) (cloneNode newChild) (insertPos + i)) ++
      Differ.compareRemainingChildrenF fuel oldChildren newChildren path
        (.insertion insertPos count)
    | .deletion deletePos count =>
      ((List.range count).filterMap fun i =>
        (oldChildren[deletePos + i]?).map fun oldChild =>
          Change.removeChild path (some parent) (some oldChild) (deletePos + i)) ++
      Differ.compareRemainingChildrenF fuel oldChildren newChildren path
        (.deletion deletePos count)
  termination_by structural fuel _ _ _ _ _ => fuel

/-- Embeds `Differ.compareRemainingChildren` (the source appends into
the ambient `changes` array; here the produced list is returned). -/
def Differ.compareRemainingChildrenF :
    Nat → List DNode → List DNode → String → StructChange → List Change
  | 0, _, _, _, _ => []
  | fuel + 1, oldChildren, newChildren, path, changeInfo =>
    match changeInfo with
    | .insertion changePos changeCount =>
      ((List.range changePos).flatMap fun i =>
        if Differ.shouldSkipComparison oldChildren[i]? newChildren[i]? then []
        else Differ.compareElementsF fuel oldChildren[i]? newChildren[i]?
          (path ++ "[" ++ natRepr i ++ "]")) ++
      ((List.range (oldChildren.length - changePos)).flatMap fun j =>
        let i := changePos + j
        if Differ.shouldSkipComparison oldChildren[i]? newChildren[i + changeCount]? then []
        else Differ.compareElementsF fuel oldChildren[i]? newChildren[i + changeCount]?
          (path ++ "[" ++ natRepr (i + changeCount) ++ "]"))
    | .deletion changePos changeCount =>
      ((List.range changePos).flatMap fun i =>
        if Differ.shouldSkipComparison oldChildren[i]? newChildren[i]? then []
        else Differ.compareElementsF fuel oldChildren[i]? newChildren[i]?
          (path ++ "[" ++ natRepr i ++ "]")) ++
      ((List.range (newChildren.length - changePos)).flatMap fun j =>
        let i := changePos + j
        if Differ.shouldSkipComparison oldChildren[i + changeCount]? newChildren[i]? then []
        else Differ.compareElementsF fuel oldChildren[i + changeCount]? newChildren[i]?
          (path ++ "[" ++ natRepr i ++ "]"))
  termination_by structural fuel _ _ _ _ => fuel

end

/-- Entry point `Differ.compareElements` with adequate fuel: at most
four fuel units are consumed per tree level, so this fuel strictly
dominates any call chain on the given inputs and no exhaustion branch is
ever taken. -/
def Differ.compareElements (oldElement newElement : Option DNode) (path : String := "") :
    List Change :=
  Differ.compareElementsF (4 * (nsizeO oldElement + nsizeO newElement) + 4)
    oldElement newElement path

/-! ## Decidable equality for the node and change types (used only to
evaluate the embedding on concrete inputs) -/

mutual

/-- Boolean structural equality on `DNode`. -/
def dnodeBeq : DNode → DNode → Bool
  | .text i c, .text j d => i = j ∧ c = d
  | .element i t a cs, .element j u b ds => i = j ∧ t = u ∧ a = b ∧ dnodeBeqL cs ds
  | _, _ => false

/-- Boolean structural equality on `List DNode`. -/
def dnodeBeqL : List DNode → List DNode → Bool
  | [], [] => true
  | c :: cs, d :: ds => dnodeBeq c d ∧ dnodeBeqL cs ds
  | _, _ => false

end

mutual

theorem dnodeBeq_iff : ∀ (a b : DNode), dnodeBeq a b = true ↔ a = b
  | .text i c, .text j d => by simp [dnodeBeq]
  | .element i t a cs, .element j u b ds => by
    simp [dnodeBeq, dnodeBeqL_iff cs ds]
  | .text _ _, .element _ _ _ _ => by simp [dnodeBeq]
  | .element _ _ _ _, .text _ _ => by simp [dnodeBeq]

theorem dnodeBeqL_iff : ∀ (as bs : List DNode), dnodeBeqL as bs = true ↔ as = bs
  | [], [] => by simp [dnodeBeqL]
  | c :: cs, d :: ds => by
    simp [dnodeBeqL, dnodeBeq_iff c d, dnodeBeqL_iff cs ds]
  | [], _ :: _ => by simp [dnodeBeqL]
  | _ :: _, [] => by simp [dnodeBeqL]

end

instance : DecidableEq DNode := fun a b => decidable_of_iff _ (dnodeBeq_iff a b)

deriving instance DecidableEq for Change

/-! ## The live-DOM state model

The change-list patcher mutates an externally owned tree.  The state is
a forest: the first roots are the live trees, and nodes detached during
patching are appended as extra roots (a detached JavaScript node still
exists and keeps its subtree).  All primitives locate nodes by identity,
matching JavaScript reference semantics under the DOM invariant that one
node object appears once in the forest. -/

mutual
/-- First node with identity `id` in a subtree (the root included). -/
def findNode (id : Nat) : DNode → Option DNode
  | .text i c => if i = id then some (.text i c) else none
  | .element i t a cs =>
    if i = id then some (.element i t a cs) else findNodeL id cs

/-- First node with identity `id` in a list of subtrees. -/
def findNodeL (id : Nat) : List DNode → Option DNode
  | [] => none
  | c :: cs =>
    match findNode id c with
    | some r => some r
    | none => findNodeL id cs
end

mutual
/-- Rewrites the node with identity `id` inside a subtree. -/
def mapNode (id : Nat) (f : DNode → DNode) : DNode → DNode
  | .text i c => if i = id then f (.text i c) else .text i c
  | .element i t a cs =>
    if i = id then f (.element i t a cs) else .element i t a (mapNodeL id f cs)

/-- Rewrites the node with identity `id` inside a list of subtrees. -/
def mapNodeL (id : Nat) (f : DNode → DNode) : List DNode → List DNode
  | [] => []
  | c :: cs => mapNode id f c :: mapNodeL id f cs
end

mutual
/-- Detaches the first strict descendant with identity `id` from a
subtree, returning the updated subtree and the extracted node. -/
def extractNode (id : Nat) : DNode → DNode × Option DNode
  | .text i c => (.text i c, none)
  | .element i t a cs =>
    let r := extractNodeL id cs
    (.element i t a r.1, r.2)

/-- Detaches the first node with identity `id` from a list of subtrees
(checking the roots of the list as well). -/
def extractNodeL (id : Nat) : List DNode → List DNode × Option DNode
  | [] => ([], none)
  | c :: cs =>
    if c.nid = id then (cs, some c)
    else
      let r := extractNode id c
      match r.2 with
      | some x => (r.1 :: cs, some x)
      | none =>
        let r' := extractNodeL id cs
        (r.1 :: r'.1, r'.2)
end

mutual
/-- Replaces the first strict descendant with identity `id` by `newN`,
returning the updated subtree and the replaced node. -/
def replaceNode (id : Nat) (newN : DNode) : DNode → DNode × Option DNode
  | .text i c => (.text i c, none)
  | .element i t a cs =>
    let r := replaceNodeL id newN cs
    (.element i t a r.1, r.2)

/-- Replaces the first node with identity `id` in a list of subtrees. -/
def replaceNodeL (id : Nat) (newN : DNode) : List DNode → List DNode × Option DNode
  | [] => ([], none)
  | c :: cs =>
    if c.nid = id then (newN :: cs, some c)
    else
      let r := replaceNode id newN c
      match r.2 with
      | some x => (r.1 :: cs, some x)
      | none =>
        let r' := replaceNodeL id newN cs
        (r.1 :: r'.1, r'.2)
end

/-- Node with identity `id` anywhere in the forest. -/
def domFind (dom : List DNode) (id : Nat) : Option DNode := findNodeL id dom

/-- Rewrite the node with identity `id` anywhere in the forest. -/
def domMap (dom : List DNode) (id : Nat) (f : DNode → DNode) : List DNode :=
  mapNodeL id f dom

/-- Detach pass over the root list (roots themselves are parentless and
are never detached). -/
def domRemoveAux (id : Nat) : List DNode → List DNode × Option DNode
  | [] => ([], none)
  | r :: rs =>
    let e := extractNode id r
    match e.2 with
    | some x => (e.1 :: rs, some x)
    | none =>
      let rest := domRemoveAux id rs
      (e.1 :: rest.1, rest.2)

/-- Detach a non-root node with identity `id` (a parentless node ignores
`remove()`); the detached subtree becomes a new root. -/
def domRemove (dom : List DNode) (id : Nat) : List DNode :=
  let r := domRemoveAux id dom
  match r.2 with
  | some x => r.1 ++ [x]
  | none => r.1

/-- Replace pass over the root list (a parentless node ignores
`replaceWith`). -/
def domReplaceAux (id : Nat) (newN : DNode) : List DNode → List DNode × Option DNode
  | [] => ([], none)
  | r :: rs =>
    let e := replaceNode id newN r
    match e.2 with
    | some x => (e.1 :: rs, some x)
    | none =>
      let rest := domReplaceAux id newN rs
      (e.1 :: rest.1, rest.2)

/-- Replace the non-root node with identity `id` by `newN`; the replaced
subtree becomes a detached root. -/
def domReplace (dom : List DNode) (id : Nat) (newN : DNode) : List DNode :=
  let r := domReplaceAux id newN dom
  match r.2 with
  | some x => r.1 ++ [x]
  | none => r.1

/-- Insert into a list at an index, appending when the index is not less
than the length (`insertBefore(x, children[i] || null)`). -/
def insertAt (l : List DNode) (i : Nat) (x : DNode) : List DNode :=
  if i ≥ l.length then l ++ [x] else l.take i ++ [x] ++ l.drop i

/-- Remove the first node with identity `cid` from a one-level child
list, returning the rest and the removed node. -/
def removeFirstById (cid : Nat) : List DNode → List DNode × Option DNode
  | [] => ([], none)
  | c :: cs =>
    if c.nid = cid then (cs, some c)
    else
      let r := removeFirstById cid cs
      (c :: r.1, r.2)

/-! ## MediaProcessor (`src/utils/MediaProcessor.js`)

The Patcher is modelled with its default configuration, in which the
caller-supplied `processMediaElement` hook is `null`; the only effect of
`processNewNodeMedia` is then the `data-force-reprocess` marker set on
qualifying `img` elements. -/

/-- Attribute effect of `processNewNodeMedia` on one `img` element. -/
def processImgAttrs (attrs : List (String × String)) : List (String × String) :=
  match attrLookup attrs "src" with
  | some src =>
    if src ≠ "" ∧ ¬ strStartsWith src "blob:" ∧ ¬ strStartsWith src "data:"
        ∧ ¬ strStartsWith src "http" then
      attrSet attrs "data-force-reprocess" "true"
    else if src ≠ "" ∧ NodeUtils.isLocalFilePath src then
      attrSet attrs "data-force-reprocess" "true"
    else attrs
  | none => attrs

mutual
/-- Applies the `img` processing to every descendant matched by
`querySelectorAll("img")`. -/
def mediaMapNode : DNode → DNode
  | .text i c => .text i c
  | .element i t a cs =>
    .element i t (if strToLower t = "img" then processImgAttrs a else a) (mediaMapNodeL cs)

/-- `mediaMapNode` over a list of subtrees. -/
def mediaMapNodeL : List DNode → List DNode
  | [] => []
  | c :: cs => mediaMapNode c :: mediaMapNodeL cs
end

/-- Embeds `MediaProcessor.processNewNodeMedia` with a `null`
`processMediaElement` callback.  When `node.tagName === "IMG"` the
source processes only the node itself, otherwise all `img` descendants
(`querySelectorAll` searches strict descendants).  The source mutates
the already-inserted node in place; inserting the processed value is the
same state. -/
def MediaProcessor.processNewNodeMedia (node : DNode) : DNode :=
  match node with
  | .text i c => .text i c
  | .element i t a cs =>
    if t = "IMG" then .element i t (processImgAttrs a) cs
    else .element i t a (mediaMapNodeL cs)

/-! ## Patcher, change-list mode (`src/core/Patcher.js`, `applyChanges`) -/

/-- Failures surfaced by the DOM while executing one change; they are
caught at the operation boundary of the batch loop. -/
inductive PatchErr where
  | typeError
  | notFoundError
  | hierarchyRequestError
  deriving DecidableEq, Repr

/-- The source's `order` map lookup `order[change.type]`: every written
change type is present (an unknown type would yield `undefined`). -/
def jsOrderVal : Change → Option Nat
  | .removeChild .. => some 0
  | .remove .. => some 1
  | .updateText .. => some 2
  | .updateAttributes .. => some 3
  | .replace .. => some 4
  | .insertChild .. => some 5
  | .insert .. => some 6

/-- JavaScript `x || d` on an optional number: `undefined` and `0` are
both falsy and fall back to `d`. -/
def jsFalsyOrNat (x : Option Nat) (d : Nat) : Nat :=
  match x with
  | some v => if v = 0 then d else v
  | none => d

/-- Effective sort priority used by `applyChanges`:
`order[a.type] || 10`. -/
def Patcher.effPriority (c : Change) : Nat := jsFalsyOrNat (jsOrderVal c) 10

/-- Embeds the `[...changes].sort(...)` call of `applyChanges`.
`Array.prototype.sort` is stable and the comparator returns the
difference of effective priorities, so the result is the concatenation
of the equal-priority groups in ascending priority order, each group in
original order. -/
def Patcher.sortChanges (changes : List Change) : List Change :=
  (List.range 11).flatMap fun p => changes.filter fun c => Patcher.effPriority c = p

/-- Embeds `Patcher.applyChange` (one `switch` case per change type).
Change types without a `case` — `insert` — fall through the `switch`
and leave the tree unchanged. -/
def Patcher.applyChange (change : Change) (dom : List DNode) : Except PatchErr (List DNode) :=
  match change with
  | .updateText _ el _ newContent =>
    match el with
    | none => .error .typeError
    | some e =>
      .ok (domMap dom e.nid fun n =>
        match n with
        | .text i _ => .text i newContent
        | .element i t a _ =>
          .element i t a (if newContent = "" then [] else [.text 1 newContent]))
  | .updateAttributes _ el changes =>
    match el with
    | none => .error .typeError
    | some e =>
      match domFind dom e.nid with
      | some (.text _ _) => .error .typeError
      | _ =>
        .ok (domMap dom e.nid fun n =>
          match n with
          | .element i t a cs =>
            .element i t
              (changes.foldl
                (fun acc ac =>
                  match ac.newValue with
                  | none => attrRemove acc ac.name
                  | some v => attrSet acc ac.name v) a) cs
          | t => t)
  | .replace _ oldEl newEl =>
    match oldEl with
    | none => .error .typeError
    | some o => .ok (domReplace dom o.nid (MediaProcessor.processNewNodeMedia newEl))
  | .insertChild _ parent child index =>
    match parent with
    | none => .error .typeError
    | some p =>
      match domFind dom p.nid with
      | some (.text _ _) => .error .hierarchyRequestError
      | some (.element _ _ _ _) =>
        .ok (domMap dom p.nid fun n =>
          match n with
          | .element i t a cs =>
            .element i t a (insertAt cs index (MediaProcessor.processNewNodeMedia child))
          | t => t)
      | none => .ok dom
  | .removeChild _ parent child _ =>
    match parent with
    | none => .error .typeError
    | some p =>
      match child with
      | none => .ok dom
      | some c =>
        .ok (domMap dom p.nid fun n =>
          match n with
          | .element i t a cs => .element i t a (removeFirstById c.nid cs).1
          | t => t)
  | .remove _ el =>
    match el with
    | none => .error .typeError
    | some e => .ok (domRemove dom e.nid)
  | .insert _ _ => .ok dom

/-- The execution loop of `applyChanges`: every change is attempted in
order; an exception from one change is caught, recorded in the log, and
the loop continues with the remaining batch. -/
def Patcher.applyLoop : List DNode → List Change → List DNode × List (Change × Option PatchErr)
  | dom, [] => (dom, [])
  | dom, c :: rest =>
    match Patcher.applyChange c dom with
    | .ok dom' =>
      let r := Patcher.applyLoop dom' rest
      (r.1, (c, none) :: r.2)
    | .error e =>
      let r := Patcher.applyLoop dom rest
      (r.1, (c, some e) :: r.2)

/-- Embeds `Patcher.applyChanges`: stable-sort by priority, then apply
each change under a per-change `try`/`catch`. -/
def Patcher.applyChanges (dom : List DNode) (changes : List Change) :
    List DNode × List (Change × Option PatchErr) :=
  Patcher.applyLoop dom (Patcher.sortChanges changes)

/-! ## Virtual description nodes (the Patcher's keyed mode) -/

/-- Virtual (description) node.  Field names follow the JavaScript
object shape: `typ` is the JS `type` tag ("text" or "element"),
`nodeTypeV` the optional `nodeType`, `nodeId` the optional `_nodeId`
identity key (absent or empty is falsy), `immutableFlag` the
`_immutable` marker. -/
inductive VNode where
  | mk (typ : String) (nodeTypeV : Option Nat) (content : String) (tagName : Option String)
      (attributes : List (String × String)) (children : List VNode)
      (nodeId : Option String) (immutableFlag : Bool)

/-- JS `type` field. -/
def VNode.typ : VNode → String
  | .mk t _ _ _ _ _ _ _ => t

/-- JS `nodeType` field. -/
def VNode.nodeTypeV : VNode → Option Nat
  | .mk _ nt _ _ _ _ _ _ => nt

/-- JS `content` field (text nodes). -/
def VNode.content : VNode → String
  | .mk _ _ c _ _ _ _ _ => c

/-- JS `tagName` field (`none` models `undefined`). -/
def VNode.tagName : VNode → Option String
  | .mk _ _ _ tn _ _ _ _ => tn

/-- JS `attributes` field. -/
def VNode.attributes : VNode → List (String × String)
  | .mk _ _ _ _ a _ _ _ => a

/-- JS `children` field. -/
def VNode.children : VNode → List VNode
  | .mk _ _ _ _ _ cs _ _ => cs

/-- JS `_nodeId` field. -/
def VNode.nodeId : VNode → Option String
  | .mk _ _ _ _ _ _ k _ => k

/-- JS `_immutable` field. -/
def VNode.immutableFlag : VNode → Bool
  | .mk _ _ _ _ _ _ _ b => b

mutual
/-- Size measure for virtual nodes, used for fuel bounds. -/
def VNode.vsize : VNode → Nat
  | .mk _ _ _ _ _ cs _ _ => 1 + vsizeL cs

/-- Size of a virtual-node list. -/
def vsizeL : List VNode → Nat
  | [] => 0
  | c :: cs => c.vsize + vsizeL cs
end

/-- Size of an optional virtual node. -/
def vsizeO : Option VNode → Nat
  | none => 0
  | some v => v.vsize

/-- Membership of an optional `tagName` in a tag list
(`list.includes(undefined)` is `false`). -/
def tagIn (l : List String) : Option String → Bool
  | some t => t ∈ l
  | none => false

/-- Embeds `NodeComparator.nodesAreEquivalent`. -/
def NodeComparator.nodesAreEquivalent (vNode1 vNode2 : Option VNode) : Bool :=
  match vNode1, vNode2 with
  | none, _ => false
  | _, none => false
  | some a, some b =>
    if a.nodeTypeV ≠ b.nodeTypeV then false
    else if a.typ = "text" then
      if a.content = b.content then true
      else if strTrim a.content = "" ∧ strTrim b.content = "" then true
      else false
    else if a.typ = "element" then
      if a.tagName ≠ b.tagName then false
      else if a.immutableFlag ∨ b.immutableFlag then
        let position1 := (attrLookup a.attributes "data-block-position").getD ""
        let position2 := (attrLookup b.attributes "data-block-position").getD ""
        if position1 ≠ "" ∧ position2 ≠ "" ∧ position1 = position2 ∧ a.tagName = b.tagName then
          true
        else
          (attrLookup a.attributes "data-raw").getD "" = (attrLookup b.attributes "data-raw").getD ""
            ∧ (attrLookup a.attributes "data-language").getD ""
              = (attrLookup b.attributes "data-language").getD ""
            ∧ a.tagName = b.tagName
      else if strTruthy a.nodeId ∧ strTruthy b.nodeId then a.nodeId = b.nodeId
      else
        ["src", "href", "data-entity", "id", "class"].all fun attr =>
          attrLookup a.attributes attr = attrLookup b.attributes attr
    else false

/-- Embeds `NodeComparator.isSimpleElementMatch`. -/
def NodeComparator.isSimpleElementMatch (vNode1 vNode2 : Option VNode) : Bool :=
  match vNode1, vNode2 with
  | none, _ => false
  | _, none => false
  | some a, some b =>
    if a.typ = "text" ∧ b.typ = "text" then
      let content1 := strTrim a.content
      let content2 := strTrim b.content
      if content1 = "" ∧ content2 = "" then true
      else if content1 ≠ "" ∧ content2 ≠ "" then
        (content1.length = 1) = (content2.length = 1)
      else false
    else if a.typ = "element" ∧ b.typ = "element" then
      if tagIn ["br", "hr"] a.tagName ∧ tagIn ["br", "hr"] b.tagName
          ∧ a.tagName = b.tagName then true
      else if tagIn ["p", "div", "span", "strong", "em", "u", "i", "b"] a.tagName
          ∧ tagIn ["p", "div", "span", "strong", "em", "u", "i", "b"] b.tagName
          ∧ a.tagName = b.tagName then
        let children1 := a.children
        let children2 := b.children
        if children1.length = 0 ∧ children2.length = 0 then true
        else if children1.length > 0 ∧ children2.length > 0
            ∧ max children1.length children2.length
              - min children1.length children2.length ≤ 1 then true
        else false
      else false
    else false

/-! ## Keyed reconciliation: key maps and matching
(`src/core/Patcher.js`, `keyBasedPatch`) -/

/-- One entry of the old-children key map.  `realNodeId` is the identity
of `realChildren[index]` (the reference the source stores); it is
resolved against the current parent at execution time, which is exactly
how a retained JavaScript reference behaves. -/
structure OldEntry where
  vNode : VNode
  realNodeId : Option Nat
  index : Nat
  originalKey : String

/-- One entry of the new-children key map.  The template child is stored
by value: the template tree is never mutated. -/
structure NewEntry where
  vNode : VNode
  newRealNode : Option DNode
  index : Nat
  originalKey : String

/-- The synthesized key of `keyBasedPatch`:
`child._nodeId || `${child.type}-${index}-${child.tagName || ""}``. -/
def synthKey (child : VNode) (index : Nat) : String :=
  if strTruthy child.nodeId then (child.nodeId).getD ""
  else child.typ ++ "-" ++ natRepr index ++ "-" ++ (child.tagName).getD ""

/-- Candidate key sequence of the collision loop: the bare key first,
then `key-dup1`, `key-dup2`, …. -/
def dupCand (base : String) (c : Nat) : String :=
  if c = 0 then base else base ++ "-dup" ++ natRepr c

/-- The `while (map.has(finalKey))` disambiguation loop.  The fuel
`keys.length + 1` always suffices because the candidates are pairwise
distinct strings. -/
def freshKeyAux (keys : List String) (base : String) : Nat → Nat → String
  | 0, c => dupCand base c
  | fuel + 1, c =>
    if dupCand base c ∈ keys then freshKeyAux keys base fuel (c + 1) else dupCand base c

/-- Final key chosen for a child given the keys already in the map. -/
def freshKey (keys : List String) (base : String) : String :=
  freshKeyAux keys base (keys.length + 1) 0

/-- The `oldChildren.forEach` loop building the old-children key map:
a null child adds nothing; otherwise `Map.set` with the disambiguated
fresh key appends one entry. -/
def buildOldChildMapAux (realChildren : List DNode) :
    List (Option VNode) → Nat → List (String × OldEntry) → List (String × OldEntry)
  | [], _, m => m
  | none :: rest, index, m => buildOldChildMapAux realChildren rest (index + 1) m
  | some child :: rest, index, m =>
    let key := synthKey child index
    let finalKey := freshKey (m.map (·.1)) key
    buildOldChildMapAux realChildren rest (index + 1)
      (m ++ [(finalKey, ⟨child, (realChildren[index]?).map DNode.nid, index, key⟩)])

/-- Builds the old-children key map. -/
def buildOldChildMap (oldChildren : List (Option VNode)) (realChildren : List DNode) :
    List (String × OldEntry) :=
  buildOldChildMapAux realChildren oldChildren 0 []

/-- The `newChildren.forEach` loop building the new-children key map,
disambiguated exactly like the old one (and, as in the source, not read
again afterwards). -/
def buildNewChildMapAux (newRealChildren : List DNode) :
    List (Option VNode) → Nat → List (String × NewEntry) → List (String × NewEntry)
  | [], _, m => m
  | none :: rest, index, m => buildNewChildMapAux newRealChildren rest (index + 1) m
  | some child :: rest, index, m =>
    let key := synthKey child index
    let finalKey := freshKey (m.map (·.1)) key
    buildNewChildMapAux newRealChildren rest (index + 1)
      (m ++ [(finalKey, ⟨child, newRealChildren[index]?, index, key⟩)])

/-- Builds the new-children key map. -/
def buildNewChildMap (newChildren : List (Option VNode)) (newRealChildren : List DNode) :
    List (String × NewEntry) :=
  buildNewChildMapAux newRealChildren newChildren 0 []

/-- Matching strategy 1: exact `_nodeId` equality against a
not-yet-matched old entry, in map order. -/
def findStrategy1 (oldMap : List (String × OldEntry)) (matched : List String)
    (newChild : VNode) : Option (String × OldEntry) :=
  oldMap.find? fun kv =>
    ¬ matched.contains kv.1 ∧ strTruthy newChild.nodeId ∧ strTruthy kv.2.vNode.nodeId
      ∧ newChild.nodeId = kv.2.vNode.nodeId

/-- Matching strategy 2: `NodeComparator.nodesAreEquivalent`. -/
def findStrategy2 (oldMap : List (String × OldEntry)) (matched : List String)
    (newChild : VNode) : Option (String × OldEntry) :=
  oldMap.find? fun kv =>
    ¬ matched.contains kv.1
      ∧ NodeComparator.nodesAreEquivalent (some kv.2.vNode) (some newChild)

/-- Matching strategy 3: `NodeComparator.isSimpleElementMatch` within an
index distance of 2 (the source keeps scanning when the distance test
fails). -/
def findStrategy3 (oldMap : List (String × OldEntry)) (matched : List String)
    (newChild : VNode) (newIndex : Nat) : Option (String × OldEntry) :=
  oldMap.find? fun kv =>
    ¬ matched.contains kv.1
      ∧ NodeComparator.isSimpleElementMatch (some kv.2.vNode) (some newChild)
      ∧ max kv.2.index newIndex - min kv.2.index newIndex ≤ 2

/-- The three-tier match of the first pass; the first successful
strategy wins. -/
def matchOldEntry (oldMap : List (String × OldEntry)) (matched : List String)
    (newChild : VNode) (newIndex : Nat) : Option (String × OldEntry) :=
  match findStrategy1 oldMap matched newChild with
  | some kv => some kv
  | none =>
    match findStrategy2 oldMap matched newChild with
    | some kv => some kv
    | none => findStrategy3 oldMap matched newChild newIndex

/-- Reconciliation operations prepared by `keyBasedPatch`. -/
inductive KOp where
  | update (newIndex : Nat) (oldEntry : OldEntry) (newChild : VNode) (newRealChild : Option DNode)
  | insert (newIndex : Nat) (newChild : VNode) (newRealChild : Option DNode)
  | remove (oldEntry : OldEntry)

/-- Whether an operation is a removal. -/
def KOp.isRemoveOp : KOp → Bool
  | .remove _ => true
  | _ => false

/-- The `newIndex` used by the sort comparator (0 for removals, which
the comparator orders first regardless). -/
def KOp.newIndexOf : KOp → Nat
  | .update i _ _ _ => i
  | .insert i _ _ => i
  | .remove _ => 0

/-- First pass of `keyBasedPatch`: walk the new children in order,
match each against the yet-unmatched old entries, and emit an update or
an insert; the matched old key is consumed.  (The source recovers the
key by scanning the map for the entry object; entries are uniquely
determined by their `index` field, so consuming the found key is the
same.)  Returns the operations and the matched keys. -/
def buildOpsAux (oldMap : List (String × OldEntry)) (newRealChildren : List DNode) :
    List (Option VNode) → Nat → List String → List KOp × List String
  | [], _, matched => ([], matched)
  | none :: rest, newIndex, matched =>
    buildOpsAux oldMap newRealChildren rest (newIndex + 1) matched
  | some newChild :: rest, newIndex, matched =>
    match matchOldEntry oldMap matched newChild newIndex with
    | some kv =>
      let r := buildOpsAux oldMap newRealChildren rest (newIndex + 1) (matched ++ [kv.1])
      (KOp.update newIndex kv.2 newChild newRealChildren[newIndex]? :: r.1, r.2)
    | none =>
      let r := buildOpsAux oldMap newRealChildren rest (newIndex + 1) matched
      (KOp.insert newIndex newChild newRealChildren[newIndex]? :: r.1, r.2)

/-- Both passes of the operation-building phase: matched updates and
inserts, then removals for unmatched old entries. -/
def buildOps (oldMap : List (String × OldEntry)) (newChildren : List (Option VNode))
    (newRealChildren : List DNode) : List KOp :=
  let r := buildOpsAux oldMap newRealChildren newChildren 0 []
  r.1 ++ (oldMap.filter fun kv => ¬ r.2.contains kv.1).map fun kv => KOp.remove kv.2

/-- Stable insertion by ascending `newIndex`. -/
def insertByNewIndex (op : KOp) : List KOp → List KOp
  | [] => [op]
  | o :: os =>
    if KOp.newIndexOf op < KOp.newIndexOf o then op :: o :: os
    else o :: insertByNewIndex op os

/-- Embeds the `operations.sort(...)` call: the comparator puts every
removal before every non-removal and orders the rest by ascending
`newIndex`; the engine's stable merge sort therefore yields the
removals in original order followed by the insert/update operations by
ascending `newIndex`. -/
def sortKOps (ops : List KOp) : List KOp :=
  ops.filter KOp.isRemoveOp
    ++ (ops.filter fun o => ¬ KOp.isRemoveOp o).foldr insertByNewIndex []

/-- Replace the first direct child with identity `rid` (DOM
`replaceChild`). -/
def replaceFirstById (rid : Nat) (newN : DNode) : List DNode → List DNode
  | [] => []
  | c :: cs => if c.nid = rid then newN :: cs else c :: replaceFirstById rid newN cs

/-- DOM `textContent` assignment: a text node gets the new content; an
element's children are replaced by one fresh text node (none when the
string is empty).  The synthesized text node gets the odd identity 1,
fresh with respect to even-identified live nodes. -/
def setTextContent (newContent : String) : DNode → DNode
  | .text i _ => .text i newContent
  | .element i t a _ =>
    .element i t a (if newContent = "" then [] else [.text 1 newContent])

/-- Insert `node` before the first child with identity `targetId` (DOM
`insertBefore`; the call sites guarantee the target is present). -/
def insBefore (targetId : Nat) (node : DNode) : List DNode → List DNode
  | [] => [node]
  | c :: cs => if c.nid = targetId then node :: c :: cs else c :: insBefore targetId node cs

/-- Rewrite the first child with identity `rid`. -/
def mapFirstById (rid : Nat) (f : DNode → DNode) : List DNode → List DNode
  | [] => []
  | c :: cs => if c.nid = rid then f c :: cs else c :: mapFirstById rid f cs

/-! ## Patcher, keyed reconciliation (`src/core/Patcher.js`)

All functions return the updated parent node; a second component records
the error caught at the operation boundary (the state already reflects
everything executed before the throw).  The Patcher is modelled with its
default `null` media callback. -/

/-- Embeds `Patcher.handleInsert`. -/
def Patcher.handleInsertF (realParent : DNode) (newIndex : Nat) (newChild : VNode)
    (newRealChild : Option DNode) : DNode × Option PatchErr :=
  let currentChildren := realParent.childNodes
  let existingNode := currentChildren[newIndex]?
  let shouldSkipInsertion : Bool :=
    match existingNode with
    | some ex =>
      if newChild.typ = "text" ∧ ex.nodeType = 3 then ex.textContent = newChild.content
      else if newChild.typ = "element" ∧ ex.nodeType = 1 then
        match ex.tagOpt with
        | some t => some (strToLower t) = newChild.tagName
        | none => false
      else false
    | none => false
  if shouldSkipInsertion then (realParent, none)
  else
    match newRealChild with
    | some tpl =>
      let clonedNode := cloneNode tpl
      let processed :=
        if NodeUtils.needsMediaProcessing clonedNode then
          MediaProcessor.processNewNodeMedia clonedNode
        else clonedNode
      match realParent with
      | .element i t a cs => (.element i t a (insertAt cs newIndex processed), none)
      | .text _ _ => (realParent, some .hierarchyRequestError)
    | none =>
      if newChild.typ = "text" then
        match realParent with
        | .element i t a cs =>
          (.element i t a (insertAt cs newIndex (.text 1 newChild.content)), none)
        | .text _ _ => (realParent, some .hierarchyRequestError)
      else if newChild.typ = "element" then
        let newElement : DNode :=
          .element 1 ((newChild.tagName).getD "undefined")
            ((newChild.attributes).foldl (fun acc p => attrSet acc p.1 p.2) []) []
        match realParent with
        | .element i t a cs => (.element i t a (insertAt cs newIndex newElement), none)
        | .text _ _ => (realParent, some .hierarchyRequestError)
      else (realParent, none)

mutual

/-- Embeds `Patcher.patchNode`.  Fuel is consumed at every call in the
recursive nest; the `Patcher.patchNode` wrapper supplies enough for any
input. -/
def Patcher.patchNodeF : Nat → Option DNode → Option VNode → Option VNode → Option DNode →
    Option DNode × List (KOp × Option PatchErr)
  | 0, realParent, _, _, _ => (realParent, [])
  | fuel + 1, realParent, oldVNode, newVNode, newRealElement =>
    match realParent with
    | none => (none, [])
    | some rp =>
      if rp.getAttr "data-immutable" = some "true" then (some rp, [])
      else
        let oldChildren : List (Option VNode) :=
          match oldVNode with
          | some v => v.children.map some
          | none => []
        let newChildren : List (Option VNode) :=
          match newVNode with
          | some v => v.children.map some
          | none => []
        let newRealChildren :=
          match newRealElement with
          | some e => e.childNodes
          | none => []
        if newChildren.length = 0 ∧ oldChildren.length = 0 then (some rp, [])
        else
          let fastPair : Option (VNode × VNode) :=
            match oldChildren, newChildren with
            | [some o0], [some n0] =>
              if o0.typ = "text" ∧ n0.typ = "text" then some (o0, n0) else none
            | _, _ => none
          match fastPair with
          | some p =>
            match rp.childNodes[0]? with
            | some (DNode.text _ _) =>
              if p.1.content ≠ p.2.content then
                let rp' : DNode :=
                  match rp with
                  | .element i t a cs =>
                    .element i t a
                      (match cs with
                       | c :: rest => setTextContent p.2.content c :: rest
                       | [] => [])
                  | .text i c => .text i c
                (some rp', [])
              else (some rp, [])
            | _ =>
              let r := Patcher.keyBasedPatchF fuel rp oldChildren newChildren newRealChildren
              (some r.1, r.2)
          | none =>
            let r := Patcher.keyBasedPatchF fuel rp oldChildren newChildren newRealChildren
            (some r.1, r.2)
  termination_by structural fuel _ _ _ _ => fuel

/-- Embeds `Patcher.keyBasedPatch`: build both key maps, prepare and
sort the operations, then execute them. -/
def Patcher.keyBasedPatchF : Nat → DNode → List (Option VNode) → List (Option VNode) →
    List DNode → DNode × List (KOp × Option PatchErr)
  | 0, rp, _, _, _ => (rp, [])
  | fuel + 1, realParent, oldChildren, newChildren, newRealChildren =>
    let realChildren := realParent.childNodes
    let oldChildMap := buildOldChildMap oldChildren realChildren
    let newChildMap := buildNewChildMap newChildren newRealChildren
    let operations := sortKOps (buildOps oldChildMap newChildren newRealChildren)
    match newChildMap with
    | _ => Patcher.runOpsF fuel realParent operations
  termination_by structural fuel _ _ _ _ => fuel

/-- The execution loop of `keyBasedPatch`: every operation is attempted
under its own `try`/`catch`; a caught error is logged and the loop
continues.  One fuel unit is consumed per operation. -/
def Patcher.runOpsF : Nat → DNode → List KOp → DNode × List (KOp × Option PatchErr)
  | _, rp, [] => (rp, [])
  | 0, rp, _ :: _ => (rp, [])
  | fuel + 1, rp, op :: rest =>
    let r := Patcher.executeOperationF fuel rp op
    let rest' := Patcher.runOpsF fuel r.1 rest
    (rest'.1, (op, r.2) :: rest'.2)
  termination_by structural fuel _ _ => fuel

/-- Embeds `Patcher.executeOperation`. -/
def Patcher.executeOperationF : Nat → DNode → KOp → DNode × Option PatchErr
  | 0, rp, _ => (rp, none)
  | fuel + 1, rp, op =>
    match op with
    | .remove entry =>
      match entry.realNodeId with
      | none => (rp, none)
      | some rid =>
        match (rp.childNodes).find? (fun c => c.nid = rid) with
        | some node =>
          if NodeUtils.isHeavyElement (some node) then (rp, none)
          else
            (match rp with
             | .element i t a cs => .element i t a (removeFirstById rid cs).1
             | t => t, none)
        | none => (rp, none)
    | .insert newIndex newChild newRealChild =>
      Patcher.handleInsertF rp newIndex newChild newRealChild
    | .update newIndex oldEntry newChild newRealChild =>
      Patcher.handleUpdateF fuel rp newIndex oldEntry newChild newRealChild
  termination_by structural fuel _ _ => fuel

/-- Embeds `Patcher.handleUpdate`. -/
def Patcher.handleUpdateF : Nat → DNode → Nat → OldEntry → VNode → Option DNode →
    DNode × Option PatchErr
  | 0, rp, _, _, _, _ => (rp, none)
  | fuel + 1, rp, newIndex, oldEntry, newChild, newRealChild =>
    match oldEntry.realNodeId with
    | none => (rp, none)
    | some rid =>
      if newChild.immutableFlag ∨ oldEntry.vNode.immutableFlag then
        let oldRaw := (attrLookup oldEntry.vNode.attributes "data-raw").getD ""
        let newRaw := (attrLookup newChild.attributes "data-raw").getD ""
        let oldLang := (attrLookup oldEntry.vNode.attributes "data-language").getD ""
        let newLang := (attrLookup newChild.attributes "data-language").getD ""
        if oldRaw = newRaw ∧ oldLang = newLang then (rp, none)
        else
          match newRealChild with
          | some tpl =>
            match rp with
            | .element i t a cs =>
              if (cs.find? (fun c => c.nid = rid)).isSome then
                (.element i t a
                  (replaceFirstById rid
                    (MediaProcessor.processNewNodeMedia (cloneNode tpl)) cs), none)
              else (rp, some .notFoundError)
            | .text _ _ => (rp, some .notFoundError)
          | none => (rp, none)
      else
        let currentChildren := rp.childNodes
        let rp1 :=
          match currentChildren.findIdx? (fun c => c.nid = rid) with
          | none => rp
          | some currentIndex =>
            if currentIndex ≠ newIndex then
              match rp with
              | .element i t a cs =>
                if newIndex ≥ cs.length then
                  match (removeFirstById rid cs).2 with
                  | some node => .element i t a ((removeFirstById rid cs).1 ++ [node])
                  | none => rp
                else
                  match cs[newIndex]? with
                  | some targetNode =>
                    if targetNode.nid ≠ rid then
                      match (removeFirstById rid cs).2 with
                      | some node =>
                        .element i t a (insBefore targetNode.nid node (removeFirstById rid cs).1)
                      | none => rp
                    else rp
                  | none => rp
              | .text _ _ => rp
            else rp
        if oldEntry.vNode.typ = "element" ∧ newChild.typ = "element" then
          match (rp1.childNodes).find? (fun c => c.nid = rid) with
          | none => (rp1, none)
          | some cur =>
            if ¬ NodeUtils.isHeavyElement (some cur) then
              match newRealChild with
              | none => (rp1, some .typeError)
              | some nrc =>
                let cur1 := NodeUtils.updateElementAttributes cur nrc
                let r := Patcher.patchNodeF fuel (some cur1) (some oldEntry.vNode)
                    (some newChild) newRealChild
                (match r.1 with
                 | some cur2 =>
                   match rp1 with
                   | .element i t a cs => .element i t a (replaceFirstById rid cur2 cs)
                   | t => t
                 | none => rp1, none)
            else
              let r := Patcher.patchNodeF fuel (some cur) (some oldEntry.vNode)
                  (some newChild) newRealChild
              (match r.1 with
               | some cur2 =>
                 match rp1 with
                 | .element i t a cs => .element i t a (replaceFirstById rid cur2 cs)
                 | t => t
               | none => rp1, none)
        else if oldEntry.vNode.typ = "text" ∧ newChild.typ = "text" then
          if oldEntry.vNode.content ≠ newChild.content then
            (match rp1 with
             | .element i t a cs =>
               .element i t a (mapFirstById rid (setTextContent newChild.content) cs)
             | t => t, none)
          else (rp1, none)
        else (rp1, none)
  termination_by structural fuel _ _ _ _ _ => fuel

end

/-- Entry point `Patcher.patchNode` with a generous fuel bound (at most
`#operations + 4` units are consumed per level of the description
trees). -/
def Patcher.patchNode (realParent : Option DNode) (oldVNode newVNode : Option VNode)
    (newRealElement : Option DNode) : Option DNode × List (KOp × Option PatchErr) :=
  Patcher.patchNodeF
    (8 * (vsizeO oldVNode + vsizeO newVNode) + 8 * nsizeO realParent + 8)
    realParent oldVNode newVNode newRealElement

/-! ## Concrete fixtures used by the claims -/

/-- A heavy child: an `iframe` element. -/
def exHeavy : DNode := .element 0 "IFRAME" [] []

/-- Twelve children, the first heavy: length difference above 10 against
an empty list. -/
def exKids : List DNode :=
  [exHeavy, .text 2 "1", .text 4 "2", .text 6 "3", .text 8 "4", .text 10 "5",
   .text 12 "6", .text 14 "7", .text 16 "8", .text 18 "9", .text 20 "10", .text 22 "11"]

/-- Old parent holding the twelve children. -/
def exOldParent : DNode := .element 24 "DIV" [] exKids

/-- New parent with no children. -/
def exNewParent : DNode := .element 26 "DIV" [] []

/-- A non-heavy `div` with one attribute. -/
def exOldDiv : DNode := .element 0 "DIV" [("a","1")] []

/-- A `div` carrying `data-immutable="true"` (hence heavy) and a changed
attribute. -/
def exNewDivImm : DNode := .element 2 "DIV" [("a","2"),("data-immutable","true")] []

/-- A heavy old `iframe`. -/
def exHeavyOldIframe : DNode := .element 0 "IFRAME" [("src","x")] []

/-- A new `iframe` with a different `src`. -/
def exNewIframe : DNode := .element 2 "IFRAME" [("src","y")] []

/-- A batch parent for the change-list fixtures. -/
def exBatchParent : DNode := .element 0 "DIV" [] [.text 2 "x"]

/-- A `removeChild` change targeting the batch parent's child. -/
def exRemoveChildOp : Change := .removeChild "div" (some exBatchParent) (some (.text 2 "x")) 0

/-- An `insert` change. -/
def exInsertOp : Change := .insert "div" (.text 4 "y")

/-! ## C1 — priority order of `applyChanges` -/

/-- C1: the claim says `applyChanges` executes `removeChild` operations
first (priority 0).  The code computes `order[a.type] || 10`, and
JavaScript `||` treats the number `0` as falsy, so a `removeChild`
operation gets effective priority 10 — last among the known types — and
sorts after an `insert` (priority 6) even when it precedes it in the
batch.  This theorem evaluates the embedded code at that failing input;
the claim is right about the intent (the source comments say
"removes first") and the code is wrong. -/
theorem claim1_removeChild_priority_bug :
    Patcher.effPriority exRemoveChildOp = 10 ∧
    Patcher.effPriority exInsertOp = 6 ∧
    Patcher.sortChanges [exRemoveChildOp, exInsertOp] = [exInsertOp, exRemoveChildOp] := by
  refine ⟨by decide, by decide, by decide⟩

/-! ## C2 — heavy children versus full-subtree replacement -/

/-- C2 (counterexample): `shouldReplaceAllChildren` checks
`lengthDiff > 10` before the heavy-element check, so a heavy child does
not prevent full replacement when the length difference exceeds 10, and
the Differ then emits a `removeChild` for the heavy child via the
replace-all path — contradicting the claim's "regardless of how large
the length difference is". -/
theorem claim2_counterexample :
    (exHeavy ∈ exKids ∧ NodeUtils.isHeavyElement (some exHeavy) = true) ∧
    StructuralComparator.shouldReplaceAllChildren exKids [] = true ∧
    Change.removeChild "div" (some exOldParent) (some exHeavy) 0
      ∈ Differ.compareElements (some exOldParent) (some exNewParent) "" := by
  refine ⟨⟨by decide, by decide⟩, by decide, by decide⟩

/-- C2 (amended): when the length difference is at most 10, a heavy
element on either side makes `shouldReplaceAllChildren` return `false`;
with a length difference above 10 the code chooses replacement before
ever looking at heavy elements. -/
theorem claim2_heavy_blocks_replacement (oldChildren newChildren : List DNode)
    (hlen : max oldChildren.length newChildren.length
      - min oldChildren.length newChildren.length ≤ 10)
    (hheavy : (∃ c ∈ oldChildren, NodeUtils.isHeavyElement (some c) = true)
      ∨ (∃ c ∈ newChildren, NodeUtils.isHeavyElement (some c) = true)) :
    StructuralComparator.shouldReplaceAllChildren oldChildren newChildren = false := by
  unfold StructuralComparator.shouldReplaceAllChildren
  rw [if_neg (by omega)]
  rw [if_pos]
  rcases hheavy with ⟨c, hc, hh⟩ | ⟨c, hc, hh⟩
  · left
    exact List.length_pos.mpr (List.ne_nil_of_mem (List.mem_filter.mpr ⟨hc, by simp [hh]⟩))
  · right
    exact List.length_pos.mpr (List.ne_nil_of_mem (List.mem_filter.mpr ⟨hc, by simp [hh]⟩))

/-- C2 (witness): the amended theorem applied at a concrete input. -/
theorem claim2_witness :
    StructuralComparator.shouldReplaceAllChildren [exHeavy] [] = false :=
  claim2_heavy_blocks_replacement [exHeavy] [] (by decide) (.inl ⟨exHeavy, by decide, by decide⟩)

/-! ## C3 — which side's heaviness stops the descent -/

/-- C3 (counterexample): `compareElements` checks only
`isHeavyElement(oldElement)`.  With a non-heavy old element and a heavy
new element of the same tag, the comparison still descends and emits an
attribute update — contradicting the claim's "when only the new element
is heavy just as when only the old one is". -/
theorem claim3_counterexample :
    NodeUtils.isHeavyElement (some exNewDivImm) = true ∧
    NodeUtils.isHeavyElement (some exOldDiv) = false ∧
    exOldDiv.tagOpt = exNewDivImm.tagOpt ∧
    Differ.compareElements (some exOldDiv) (some exNewDivImm) ""
      = [.updateAttributes "div" (some exOldDiv)
          [⟨"a", some "1", some "2"⟩, ⟨"data-immutable", none, some "true"⟩]] := by
  refine ⟨by decide, by decide, by decide, by decide⟩

/-- C3 (amended): for element pairs with equal tag, when the OLD element
is heavy the comparison stops and emits no operations; heaviness of only
the new element does not stop it. -/
theorem claim3_old_heavy_stops (i j : Nat) (t : String) (oa na : List (String × String))
    (ocs ncs : List DNode) (path : String)
    (hheavy : NodeUtils.isHeavyElement (some (.element i t oa ocs)) = true) :
    Differ.compareElements (some (.element i t oa ocs)) (some (.element j t na ncs)) path
      = [] := by
  have core : ∀ f, Differ.compareElementsF (f + 1)
      (some (.element i t oa ocs)) (some (.element j t na ncs)) path = [] := by
    intro f
    simp [Differ.compareElementsF, DNode.nodeType, hheavy]
  have hs : 4 * (nsizeO (some (DNode.element i t oa ocs))
      + nsizeO (some (DNode.element j t na ncs))) + 4
      = (4 * (nsizeO (some (DNode.element i t oa ocs))
        + nsizeO (some (DNode.element j t na ncs))) + 3) + 1 := by omega
  unfold Differ.compareElements
  rw [hs]
  exact core _

/-- C3 (witness): the amended theorem applied at a concrete input. -/
theorem claim3_witness :
    Differ.compareElements (some exHeavyOldIframe) (some exNewIframe) "" = [] :=
  claim3_old_heavy_stops 0 2 "IFRAME" [("src","x")] [("src","y")] [] [] "" (by decide)

/-! ## C4 — ascending scan returns the lowest matching position -/

theorem firstPosAux_spec (test : Nat → Bool) :
    ∀ fuel start p, firstPosAux test fuel start = some p →
      test p = true ∧ start ≤ p ∧ ∀ q, start ≤ q → q < p → test q = false := by
  intro fuel
  induction fuel with
  | zero => intro s p h; simp [firstPosAux] at h
  | succ f ih =>
    intro s p h
    by_cases hs : test s
    · simp [firstPosAux, hs] at h
      subst h
      exact ⟨hs, Nat.le_refl _, fun q hq1 hq2 => absurd hq1 (by omega)⟩
    · simp only [firstPosAux, if_neg hs] at h
      obtain ⟨hp, hsp, hmin⟩ := ih _ _ h
      refine ⟨hp, by omega, fun q hq1 hq2 => ?_⟩
      rcases Nat.eq_or_lt_of_le hq1 with hqs | hqs
      · subst hqs; simpa using hs
      · exact hmin q (by omega) hq2

theorem firstPassingPos_insertion (test : Nat → Bool) (bound cnt p c : Nat)
    (h : (firstPassingPos test bound).map (fun q => StructChange.insertion q cnt)
      = some (.insertion p c)) :
    c = cnt ∧ test p = true ∧ ∀ q < p, test q = false := by
  rcases Option.map_eq_some'.mp h with ⟨a, ha, hab⟩
  obtain ⟨h1, h2⟩ := StructChange.insertion.inj hab
  subst h1; subst h2
  obtain ⟨hp, _, hmin⟩ := firstPosAux_spec test _ _ _ ha
  exact ⟨rfl, hp, fun q hq => hmin q (Nat.zero_le _) hq⟩

theorem firstPassingPos_deletion (test : Nat → Bool) (bound cnt p c : Nat)
    (h : (firstPassingPos test bound).map (fun q => StructChange.deletion q cnt)
      = some (.deletion p c)) :
    c = cnt ∧ test p = true ∧ ∀ q < p, test q = false := by
  rcases Option.map_eq_some'.mp h with ⟨a, ha, hab⟩
  obtain ⟨h1, h2⟩ := StructChange.deletion.inj hab
  subst h1; subst h2
  obtain ⟨hp, _, hmin⟩ := firstPosAux_spec test _ _ _ ha
  exact ⟨rfl, hp, fun q hq => hmin q (Nat.zero_le _) hq⟩

/-- Text children for the structural-detection examples. -/
def exT : String → DNode
  | s => .text 0 s

/-- Old list `[A,B,C,D]`. -/
def exListABCD : List DNode := [exT "A", exT "B", exT "C", exT "D"]

/-- New list `[A,B,X,C,D]`. -/
def exListABXCD : List DNode := [exT "A", exT "B", exT "X", exT "C", exT "D"]

/-- Old list `[A,B,C,D,E]`. -/
def exListABCDE : List DNode := [exT "A", exT "B", exT "C", exT "D", exT "E"]

/-- New list `[A,D,E]`. -/
def exListADE : List DNode := [exT "A", exT "D", exT "E"]

/-- C4: `isSimpleInsertionOrDeletion` returns the lowest position at
which the insertion (or deletion) test passes, scanning ascending; and
at the two inputs named by the specification it returns
`{insertion, position 2, count 1}` and `{deletion, position 1, count 2}`
respectively. -/
theorem claim4_first_position :
    (∀ (oldChildren newChildren : List DNode) (p c : Nat),
      StructuralComparator.isSimpleInsertionOrDeletion oldChildren newChildren
        = some (.insertion p c) →
      StructuralComparator.testInsertionAtPosition oldChildren newChildren p c = true ∧
      ∀ q < p,
        StructuralComparator.testInsertionAtPosition oldChildren newChildren q c = false) ∧
    (∀ (oldChildren newChildren : List DNode) (p c : Nat),
      StructuralComparator.isSimpleInsertionOrDeletion oldChildren newChildren
        = some (.deletion p c) →
      StructuralComparator.testDeletionAtPosition oldChildren newChildren p c = true ∧
      ∀ q < p,
        StructuralComparator.testDeletionAtPosition oldChildren newChildren q c = false) ∧
    StructuralComparator.isSimpleInsertionOrDeletion exListABCD exListABXCD
      = some (.insertion 2 1) ∧
    StructuralComparator.isSimpleInsertionOrDeletion exListABCDE exListADE
      = some (.deletion 1 2) := by
  refine ⟨?_, ?_, by decide, by decide⟩
  · intro old new p c h
    unfold StructuralComparator.isSimpleInsertionOrDeletion at h
    split_ifs at h
    · obtain ⟨hc, ht, hmin⟩ := firstPassingPos_insertion _ _ _ _ _ h
      subst hc
      exact ⟨ht, hmin⟩
    · exact absurd h (by
        unfold StructuralComparator.checkSimpleDeletionAnywhere
        rcases hop : firstPassingPos
            (fun pp => StructuralComparator.testDeletionAtPosition old new pp 1)
            new.length with _ | q <;> simp [hop])
    · dsimp only at h
      split_ifs at h
      · obtain ⟨hc, ht, hmin⟩ := firstPassingPos_insertion _ _ _ _ _ h
        subst hc
        exact ⟨ht, hmin⟩
    · dsimp only at h
      split_ifs at h
      · exact absurd h (by
          unfold StructuralComparator.checkMultipleDeletionsAnywhere
          rcases hop : firstPassingPos
              (fun pp => StructuralComparator.testDeletionAtPosition old new pp
                (old.length - new.length))
              new.length with _ | q <;> simp [hop])
  · intro old new p c h
    unfold StructuralComparator.isSimpleInsertionOrDeletion at h
    split_ifs at h
    · exact absurd h (by
        unfold StructuralComparator.checkSimpleInsertionAnywhere
        rcases hop : firstPassingPos
            (fun pp => StructuralComparator.testInsertionAtPosition old new pp 1)
            old.length with _ | q <;> simp [hop])
    · obtain ⟨hc, ht, hmin⟩ := firstPassingPos_deletion _ _ _ _ _ h
      subst hc
      exact ⟨ht, hmin⟩
    · dsimp only at h
      split_ifs at h
      · exact absurd h (by
          unfold StructuralComparator.checkMultipleInsertionsAnywhere
          rcases hop : firstPassingPos
              (fun pp => StructuralComparator.testInsertionAtPosition old new pp
                (new.length - old.length))
              old.length with _ | q <;> simp [hop])
    · dsimp only at h
      split_ifs at h
      · obtain ⟨hc, ht, hmin⟩ := firstPassingPos_deletion _ _ _ _ _ h
        subst hc
        exact ⟨ht, hmin⟩

/-- C4 (witness): the general statement applied at the first concrete
input, discharging its hypothesis by evaluation. -/
theorem claim4_witness :
    StructuralComparator.testInsertionAtPosition exListABCD exListABXCD 2 1 = true ∧
    StructuralComparator.testInsertionAtPosition exListABCD exListABXCD 0 1 = false :=
  ⟨(claim4_first_position.1 exListABCD exListABXCD 2 1 (by decide)).1,
   (claim4_first_position.1 exListABCD exListABXCD 2 1 (by decide)).2 0 (by decide)⟩

/-! ## C9 — keyed inserts skipped when a lookalike already sits at the
target index -/

/-- C9: `handleInsert` silently skips the insertion — leaving the live
parent unchanged and raising nothing — whenever the current child at the
target index is a text node with equal content, or an element whose
lowercased tag equals the new child's tag; the new child's attributes
and children are never examined. -/
theorem claim9_insert_skip (rp : DNode) (newIndex : Nat) (newChild : VNode)
    (newRealChild : Option DNode) (ex : DNode)
    (hex : rp.childNodes[newIndex]? = some ex)
    (hmatch :
      (newChild.typ = "text" ∧ ex.nodeType = 3 ∧ ex.textContent = newChild.content) ∨
      (newChild.typ = "element" ∧ ex.nodeType = 1 ∧
        ∃ t, ex.tagOpt = some t ∧ newChild.tagName = some (strToLower t))) :
    Patcher.handleInsertF rp newIndex newChild newRealChild = (rp, none) := by
  rcases hmatch with ⟨h1, h2, h3⟩ | ⟨h1, h2, t, h3, h4⟩
  · simp [Patcher.handleInsertF, hex, h1, h2, h3]
  · simp [Patcher.handleInsertF, hex, h1, h2, h3, h4]

/-- Fixture: a live parent with a `P` element child carrying attributes
and children. -/
def exSkipParent : DNode :=
  .element 0 "DIV" [] [.element 2 "P" [("a","1")] [.text 4 "zz"]]

/-- Fixture: a new description child — also a `p`, but with different
attributes and no children. -/
def exSkipVChild : VNode := .mk "element" none "" (some "p") [("b","2")] [] none false

/-- C9 (witness): the theorem applied at a concrete input where the
existing element's attributes and children differ from the new child's;
the insert is still skipped. -/
theorem claim9_witness :
    Patcher.handleInsertF exSkipParent 0 exSkipVChild
      (some (.element 6 "P" [("b","2")] [])) = (exSkipParent, none) :=
  claim9_insert_skip exSkipParent 0 exSkipVChild (some (.element 6 "P" [("b","2")] []))
    (.element 2 "P" [("a","1")] [.text 4 "zz"]) (by decide)
    (.inr ⟨by decide, by decide, "P", by decide, by decide⟩)

/-! ## C6 — immutable update rule of keyed reconciliation -/

/-- C6: for a matched pair where either description node is immutable,
`handleUpdate` is a complete no-op when the (`data-raw`,
`data-language`) pairs agree, and otherwise performs exactly one
whole-node replacement — the matched live child replaced by the
media-processed clone of the template — with no positional, attribute,
content or child mutation of anything else. -/
theorem claim6_immutable_update (fuel : Nat) (newIndex rid : Nat) (oldEntry : OldEntry)
    (newChild : VNode)
    (hrid : oldEntry.realNodeId = some rid)
    (himm : newChild.immutableFlag = true ∨ oldEntry.vNode.immutableFlag = true) :
    (((attrLookup oldEntry.vNode.attributes "data-raw").getD ""
        = (attrLookup newChild.attributes "data-raw").getD ""
      ∧ (attrLookup oldEntry.vNode.attributes "data-language").getD ""
        = (attrLookup newChild.attributes "data-language").getD "") →
      ∀ (rp : DNode) (newRealChild : Option DNode),
        Patcher.handleUpdateF (fuel + 1) rp newIndex oldEntry newChild newRealChild
          = (rp, none)) ∧
    (¬ ((attrLookup oldEntry.vNode.attributes "data-raw").getD ""
        = (attrLookup newChild.attributes "data-raw").getD ""
      ∧ (attrLookup oldEntry.vNode.attributes "data-language").getD ""
        = (attrLookup newChild.attributes "data-language").getD "") →
      ∀ (i : Nat) (t : String) (a : List (String × String)) (cs : List DNode) (tpl : DNode),
        (cs.find? (fun c => c.nid = rid)).isSome →
        Patcher.handleUpdateF (fuel + 1) (.element i t a cs) newIndex oldEntry newChild
            (some tpl)
          = (.element i t a
              (replaceFirstById rid
                (MediaProcessor.processNewNodeMedia (cloneNode tpl)) cs), none)) := by
  have himm' : (newChild.immutableFlag ∨ oldEntry.vNode.immutableFlag) = True := by
    rcases himm with h | h <;> simp [h]
  constructor
  · intro hpair rp newRealChild
    simp [Patcher.handleUpdateF, hrid, himm', hpair.1, hpair.2]
  · intro hpair i t a cs tpl hfind
    simp only [Patcher.handleUpdateF, hrid, himm', if_true]
    rw [if_neg (by tauto), if_pos hfind]

/-- Fixture: an immutable old description node. -/
def exImmOldV : VNode :=
  .mk "element" none "" (some "pre") [("data-raw","abc"),("data-language","js")] [] none true

/-- Fixture: an immutable new description node with the same pair. -/
def exImmNewSame : VNode :=
  .mk "element" none "" (some "pre") [("data-raw","abc"),("data-language","js")] [] none true

/-- Fixture: an immutable new description node with a changed raw. -/
def exImmNewDiff : VNode :=
  .mk "element" none "" (some "pre") [("data-raw","xyz"),("data-language","js")] [] none true

/-- Fixture: the old entry matching the live child with identity 2. -/
def exImmEntry : OldEntry := ⟨exImmOldV, some 2, 0, "k"⟩

/-- Fixture: the live parent whose first child is the matched node. -/
def exImmParent : DNode := .element 0 "DIV" [] [.element 2 "PRE" [("data-raw","abc")] []]

/-- Fixture: the template child for the replacement. -/
def exImmTpl : DNode := .element 4 "PRE" [("data-raw","xyz")] []

/-- C6 (witness): the theorem applied at concrete inputs — an equal pair
gives a strict no-op, and a changed pair gives exactly the whole-node
replacement by the clone of the template. -/
theorem claim6_witness :
    Patcher.handleUpdateF 3 exImmParent 0 exImmEntry exImmNewSame (some exImmTpl)
        = (exImmParent, none) ∧
    Patcher.handleUpdateF 3 (.element 0 "DIV" [] [.element 2 "PRE" [("data-raw","abc")] []])
        0 exImmEntry exImmNewDiff (some exImmTpl)
      = (.element 0 "DIV" []
          (replaceFirstById 2
            (MediaProcessor.processNewNodeMedia (cloneNode exImmTpl))
            [.element 2 "PRE" [("data-raw","abc")] []]), none) :=
  ⟨(claim6_immutable_update 2 0 2 exImmEntry exImmNewSame (by decide) (.inl (by decide))).1
      (by decide) exImmParent (some exImmTpl),
   (claim6_immutable_update 2 0 2 exImmEntry exImmNewDiff (by decide) (.inl (by decide))).2
      (by decide) 0 "DIV" [] [.element 2 "PRE" [("data-raw","abc")] []] exImmTpl (by decide)⟩

/-! ## C8 — per-operation error isolation in both batch loops -/

theorem applyLoop_attempts : ∀ (cs : List Change) (dom : List DNode),
    (Patcher.applyLoop dom cs).2.map Prod.fst = cs := by
  intro cs
  induction cs with
  | nil => intro dom; simp [Patcher.applyLoop]
  | cons c rest ih =>
    intro dom
    unfold Patcher.applyLoop
    cases h : Patcher.applyChange c dom <;> simp [ih]

theorem runOpsF_attempts : ∀ (ops : List KOp) (fuel : Nat) (rp : DNode),
    ops.length ≤ fuel →
    (Patcher.runOpsF fuel rp ops).2.map Prod.fst = ops := by
  intro ops
  induction ops with
  | nil => intro fuel rp _; cases fuel <;> simp [Patcher.runOpsF]
  | cons op rest ih =>
    intro fuel rp h
    match fuel, h with
    | f + 1, h =>
      simp only [Patcher.runOpsF, List.map_cons, List.cons.injEq, true_and]
      exact ih f _ (by simpa using h)

/-- Fixture: the live tree for the error-isolation demonstration. -/
def exDemoDom : List DNode := [.element 0 "DIV" [] [.text 2 "a"]]

/-- Fixture: a malformed change whose execution raises (its `element`
is `null`). -/
def exBadOp : Change := .updateText "p" none "a" "b"

/-- Fixture: a well-formed text update on the live tree. -/
def exGoodOp : Change := .updateText "p" (some (.text 2 "a")) "a" "b"

/-- C8: in both batch loops every operation is attempted exactly once
and in order, whatever errors earlier operations raise: the attempted
sequence of `applyChanges` is the whole sorted batch, the attempted
sequence of the keyed execution loop is its whole operation list, and at
a concrete batch whose first operation throws, the error is caught and
recorded while the remaining operation still executes. -/
theorem claim8_operation_isolation :
    (∀ (dom : List DNode) (changes : List Change),
      (Patcher.applyChanges dom changes).2.map Prod.fst = Patcher.sortChanges changes) ∧
    (∀ (fuel : Nat) (rp : DNode) (ops : List KOp),
      ops.length ≤ fuel →
      (Patcher.runOpsF fuel rp ops).2.map Prod.fst = ops) ∧
    Patcher.applyChanges exDemoDom [exBadOp, exGoodOp]
      = ([.element 0 "DIV" [] [.text 2 "b"]],
         [(exBadOp, some .typeError), (exGoodOp, none)]) := by
  refine ⟨?_, ?_, by decide⟩
  · intro dom changes
    exact applyLoop_attempts _ _
  · intro fuel rp ops h
    exact runOpsF_attempts ops fuel rp h

/-- C8 (witness): the keyed-loop statement applied at a concrete input,
discharging its fuel hypothesis by evaluation. -/
theorem claim8_witness :
    (Patcher.runOpsF 2 exImmParent [KOp.remove ⟨exImmOldV, none, 0, "k"⟩]).2.map Prod.fst
      = [KOp.remove ⟨exImmOldV, none, 0, "k"⟩] :=
  claim8_operation_isolation.2.1 2 exImmParent [KOp.remove ⟨exImmOldV, none, 0, "k"⟩]
    (by decide)

/-! ## C7 — uniqueness of the keyed maps -/

theorem natRepr_length_pos (n : Nat) : 0 < (natRepr n).length := by
  have : digitsRev n ≠ [] := by
    unfold digitsRev digitsAux
    split <;> simp
  show 0 < (natRepr n).data.length
  simp only [natRepr, List.length_map, List.length_reverse]
  exact List.length_pos.mpr this

theorem dupCand_injective (base : String) : Function.Injective (dupCand base) := by
  intro a b h
  match a, b with
  | 0, 0 => rfl
  | 0, b + 1 =>
    have h0 : dupCand base 0 = base := by simp [dupCand]
    have h1 : dupCand base (b + 1) = base ++ "-dup" ++ natRepr (b + 1) := by simp [dupCand]
    rw [h0, h1] at h
    have hlen := congrArg String.length h
    rw [String.length_append, String.length_append] at hlen
    have h4 : ("-dup" : String).length = 4 := rfl
    have := natRepr_length_pos (b + 1)
    omega
  | a + 1, 0 =>
    have h0 : dupCand base 0 = base := by simp [dupCand]
    have h1 : dupCand base (a + 1) = base ++ "-dup" ++ natRepr (a + 1) := by simp [dupCand]
    rw [h0, h1] at h
    have hlen := congrArg String.length h
    rw [String.length_append, String.length_append] at hlen
    have h4 : ("-dup" : String).length = 4 := rfl
    have := natRepr_length_pos (a + 1)
    omega
  | a + 1, b + 1 =>
    have h1 : dupCand base (a + 1) = base ++ "-dup" ++ natRepr (a + 1) := by simp [dupCand]
    have h2 : dupCand base (b + 1) = base ++ "-dup" ++ natRepr (b + 1) := by simp [dupCand]
    rw [h1, h2] at h
    have hd := congrArg String.data h
    simp only [String.data_append] at hd
    have hn : natRepr (a + 1) = natRepr (b + 1) := String.ext (List.append_cancel_left hd)
    exact natRepr_injective hn

theorem freshKeyAux_spec (keys : List String) (base : String) :
    ∀ fuel c, (∃ j, j ≤ fuel ∧ dupCand base (c + j) ∉ keys) →
      freshKeyAux keys base fuel c ∉ keys := by
  intro fuel
  induction fuel with
  | zero =>
    intro c ⟨j, hj, hfree⟩
    have : j = 0 := by omega
    subst this
    simpa [freshKeyAux] using hfree
  | succ f ih =>
    intro c ⟨j, hj, hfree⟩
    unfold freshKeyAux
    by_cases hc : dupCand base c ∈ keys
    · rw [if_pos (by simpa [List.elem_iff] using hc)]
      apply ih
      match j, hfree with
      | 0, hfree => exact absurd hc (by simpa using hfree)
      | j + 1, hfree =>
        exact ⟨j, by omega, by
          have : c + 1 + j = c + (j + 1) := by omega
          rw [this]; exact hfree⟩
    · rw [if_neg (by simpa [List.elem_iff] using hc)]
      exact hc

theorem freshKey_not_mem (keys : List String) (base : String) :
    freshKey keys base ∉ keys := by
  apply freshKeyAux_spec
  by_contra hall
  push_neg at hall
  have hmem : ∀ j ∈ List.range (keys.length + 2), dupCand base j ∈ keys := by
    intro j hj
    have := hall j (Nat.lt_succ_iff.mp (List.mem_range.mp hj))
    simpa using this
  have hnodup : ((List.range (keys.length + 2)).map (dupCand base)).Nodup :=
    (List.nodup_range _).map (dupCand_injective base)
  have hsub : ((List.range (keys.length + 2)).map (dupCand base)).toFinset ⊆ keys.toFinset := by
    intro x hx
    rcases List.mem_toFinset.mp hx with hx'
    rcases List.mem_map.mp hx' with ⟨j, hj, rfl⟩
    exact List.mem_toFinset.mpr (hmem j hj)
  have h1 := List.toFinset_card_of_nodup hnodup
  have h2 := Finset.card_le_card hsub
  have h3 := List.toFinset_card_le keys
  simp only [List.length_map, List.length_range] at h1
  omega

/-- Projection of an old-map entry onto the data the claim speaks about:
the description node, the live-node reference and the child index. -/
def oldEntryProj (kv : String × OldEntry) : VNode × Option Nat × Nat :=
  (kv.2.vNode, kv.2.realNodeId, kv.2.index)

/-- Projection of a new-map entry. -/
def newEntryProj (kv : String × NewEntry) : VNode × Option DNode × Nat :=
  (kv.2.vNode, kv.2.newRealNode, kv.2.index)

/-- The non-null old children paired with their references and indices,
in list order — what "exactly one entry per non-null child" denotes. -/
def indexedOldEntries (realChildren : List DNode) :
    List (Option VNode) → Nat → List (VNode × Option Nat × Nat)
  | [], _ => []
  | none :: rest, i => indexedOldEntries realChildren rest (i + 1)
  | some c :: rest, i =>
    (c, (realChildren[i]?).map DNode.nid, i) :: indexedOldEntries realChildren rest (i + 1)

/-- The non-null new children paired with their templates and indices. -/
def indexedNewEntries (newRealChildren : List DNode) :
    List (Option VNode) → Nat → List (VNode × Option DNode × Nat)
  | [], _ => []
  | none :: rest, i => indexedNewEntries newRealChildren rest (i + 1)
  | some c :: rest, i =>
    (c, newRealChildren[i]?, i) :: indexedNewEntries newRealChildren rest (i + 1)

theorem buildOldChildMapAux_spec (realChildren : List DNode) :
    ∀ (rest : List (Option VNode)) (i : Nat) (m : List (String × OldEntry)),
      (m.map Prod.fst).Nodup →
      ((buildOldChildMapAux realChildren rest i m).map Prod.fst).Nodup ∧
      (buildOldChildMapAux realChildren rest i m).map oldEntryProj
        = m.map oldEntryProj ++ indexedOldEntries realChildren rest i := by
  intro rest
  induction rest with
  | nil => intro i m hm; simp [buildOldChildMapAux, indexedOldEntries, hm]
  | cons c rest ih =>
    intro i m hm
    match c with
    | none =>
      simpa [buildOldChildMapAux, indexedOldEntries] using ih (i + 1) m hm
    | some child =>
      have hfresh := freshKey_not_mem (m.map Prod.fst) (synthKey child i)
      have hm' : (((m ++ [(freshKey (m.map Prod.fst) (synthKey child i),
          (⟨child, (realChildren[i]?).map DNode.nid, i, synthKey child i⟩ : OldEntry))]).map
            Prod.fst).Nodup) := by
        rw [List.map_append]
        rw [List.nodup_append]
        refine ⟨hm, by simp, ?_⟩
        intro x hx
        simp only [List.map_cons, List.map_nil, List.mem_singleton]
        intro hx1
        subst hx1
        exact hfresh hx
      obtain ⟨h1, h2⟩ := ih (i + 1) _ hm'
      constructor
      · simpa [buildOldChildMapAux] using h1
      · have hb : buildOldChildMapAux realChildren (some child :: rest) i m
            = buildOldChildMapAux realChildren rest (i + 1)
              (m ++ [(freshKey (m.map (·.1)) (synthKey child i),
                ⟨child, (realChildren[i]?).map DNode.nid, i, synthKey child i⟩)]) := by
          simp [buildOldChildMapAux]
        rw [hb]
        rw [show (m.map (·.1) : List String) = m.map Prod.fst from rfl] at *
        rw [h2]
        simp [indexedOldEntries, oldEntryProj]

theorem buildNewChildMapAux_spec (newRealChildren : List DNode) :
    ∀ (rest : List (Option VNode)) (i : Nat) (m : List (String × NewEntry)),
      (m.map Prod.fst).Nodup →
      ((buildNewChildMapAux newRealChildren rest i m).map Prod.fst).Nodup ∧
      (buildNewChildMapAux newRealChildren rest i m).map newEntryProj
        = m.map newEntryProj ++ indexedNewEntries newRealChildren rest i := by
  intro rest
  induction rest with
  | nil => intro i m hm; simp [buildNewChildMapAux, indexedNewEntries, hm]
  | cons c rest ih =>
    intro i m hm
    match c with
    | none =>
      simpa [buildNewChildMapAux, indexedNewEntries] using ih (i + 1) m hm
    | some child =>
      have hfresh := freshKey_not_mem (m.map Prod.fst) (synthKey child i)
      have hm' : (((m ++ [(freshKey (m.map Prod.fst) (synthKey child i),
          (⟨child, newRealChildren[i]?, i, synthKey child i⟩ : NewEntry))]).map
            Prod.fst).Nodup) := by
        rw [List.map_append]
        rw [List.nodup_append]
        refine ⟨hm, by simp, ?_⟩
        intro x hx
        simp only [List.map_cons, List.map_nil, List.mem_singleton]
        intro hx1
        subst hx1
        exact hfresh hx
      obtain ⟨h1, h2⟩ := ih (i + 1) _ hm'
      constructor
      · simpa [buildNewChildMapAux] using h1
      · have hb : buildNewChildMapAux newRealChildren (some child :: rest) i m
            = buildNewChildMapAux newRealChildren rest (i + 1)
              (m ++ [(freshKey (m.map (·.1)) (synthKey child i),
                ⟨child, newRealChildren[i]?, i, synthKey child i⟩)]) := by
          simp [buildNewChildMapAux]
        rw [hb]
        rw [show (m.map (·.1) : List String) = m.map Prod.fst from rfl] at *
        rw [h2]
        simp [indexedNewEntries, newEntryProj]

/-- Fixture: two siblings carrying the same explicit node ID `"k"`. -/
def exDupV1 : VNode := .mk "element" none "" (some "p") [] [] (some "k") false

/-- Fixture: the second sibling with the same ID but different
attributes. -/
def exDupV2 : VNode := .mk "element" none "" (some "p") [("x","1")] [] (some "k") false

/-- C7: in the key maps built by `keyBasedPatch`, every non-null child
of either list yields exactly one entry — in list order, carrying its
own description node, reference and index — and all keys within one map
are pairwise distinct; in particular two siblings with the same key get
distinct disambiguated keys (`"k"`, `"k-dup1"`) and separate entries. -/
theorem claim7_key_maps :
    (∀ (oldChildren : List (Option VNode)) (realChildren : List DNode),
      ((buildOldChildMap oldChildren realChildren).map Prod.fst).Nodup ∧
      (buildOldChildMap oldChildren realChildren).map oldEntryProj
        = indexedOldEntries realChildren oldChildren 0) ∧
    (∀ (newChildren : List (Option VNode)) (newRealChildren : List DNode),
      ((buildNewChildMap newChildren newRealChildren).map Prod.fst).Nodup ∧
      (buildNewChildMap newChildren newRealChildren).map newEntryProj
        = indexedNewEntries newRealChildren newChildren 0) ∧
    (buildOldChildMap [some exDupV1, some exDupV2] []).map Prod.fst = ["k", "k-dup1"] ∧
    (buildOldChildMap [some exDupV1, some exDupV2] []).map oldEntryProj
      = [(exDupV1, none, 0), (exDupV2, none, 1)] := by
  refine ⟨?_, ?_, rfl, rfl⟩
  · intro oc rc
    have := buildOldChildMapAux_spec rc oc 0 [] (by simp)
    simpa [buildOldChildMap] using this
  · intro nc nrc
    have := buildNewChildMapAux_spec nrc nc 0 [] (by simp)
    simpa [buildNewChildMap] using this

/-! ## C5 — idempotence of the Differ -/

theorem compareAttributes_self (o : DNode) : NodeComparator.compareAttributes o o = [] := by
  unfold NodeComparator.compareAttributes
  rw [List.filterMap_eq_nil_iff]
  intro k _
  simp

theorem isSimple_self (l : List DNode) :
    StructuralComparator.isSimpleInsertionOrDeletion l l = none := by
  unfold StructuralComparator.isSimpleInsertionOrDeletion
  have h1 : ¬ (l.length = l.length + 1) := by omega
  have h2 : ¬ (l.length > l.length) := by omega
  simp [h1, h2]

theorem significantDiff_self (c : DNode) : significantDiff c c = false := by
  unfold significantDiff
  simp

theorem zip_self_eq_map (l : List DNode) : l.zip l = l.map (fun a => (a, a)) := by
  induction l with
  | nil => rfl
  | cons a t ih => simp [List.zip_cons_cons, ih]

theorem shouldReplaceAll_self (l : List DNode) :
    StructuralComparator.shouldReplaceAllChildren l l = false := by
  have hz : (l.zip l).countP (fun p => significantDiff p.1 p.2) = 0 := by
    rw [zip_self_eq_map, List.countP_eq_zero]
    intro p hp
    rcases List.mem_map.mp hp with ⟨a, _, rfl⟩
    simp [significantDiff_self]
  unfold StructuralComparator.shouldReplaceAllChildren
  rw [if_neg (by omega)]
  simp [hz]

theorem compare_self_nil (fuel : Nat) :
    (∀ (T : DNode) (path : String), 2 * T.nsize ≤ fuel →
      Differ.compareElementsF fuel (some T) (some T) path = []) ∧
    (∀ (i : Nat) (t : String) (a : List (String × String)) (cs : List DNode) (path : String),
      2 * nsizeL cs + 1 ≤ fuel →
      Differ.compareChildrenF fuel (.element i t a cs) (.element i t a cs) path = []) := by
  induction fuel with
  | zero =>
    constructor
    · intro T path h
      have := nsize_pos T
      omega
    · intro i t a cs path h
      omega
  | succ f ih =>
    constructor
    · intro T path h
      match T with
      | .text nid c =>
        simp [Differ.compareElementsF, DNode.nodeType]
      | .element i t a cs =>
        by_cases hh : NodeUtils.isHeavyElement (some (.element i t a cs)) = true
        · simp [Differ.compareElementsF, DNode.nodeType, hh]
        · have hcc : Differ.compareChildrenF f (.element i t a cs) (.element i t a cs)
              (path ++ (if path = "" then "" else " > ") ++ strToLower t) = [] := by
            apply ih.2
            simp only [DNode.nsize] at h
            omega
          simp [Differ.compareElementsF, DNode.nodeType, hh, compareAttributes_self, hcc]
    · intro i t a cs path h
      simp only [Differ.compareChildrenF, DNode.childNodes, isSimple_self,
        shouldReplaceAll_self, if_neg Bool.false_ne_true]
      rw [Nat.max_self, List.flatMap_eq_nil_iff]
      intro j hj
      have hj' : j < cs.length := List.mem_range.mp hj
      have hget : cs[j]? = some cs[j] := List.getElem?_eq_getElem hj'
      simp only [hget]
      apply ih.1
      have hmem := nsize_mem_le cs cs[j] (List.getElem_mem hj')
      omega

/-- C5: comparing any tree against itself yields the empty change list
at every depth. -/
theorem claim5_diff_self_empty (T : DNode) (path : String) :
    Differ.compareElements (some T) (some T) path = [] := by
  unfold Differ.compareElements
  apply (compare_self_nil _).1
  simp only [nsizeO]
  omega

/-! ## C10 — inserted payloads are fresh clones of new-tree subtrees -/

/-- The new-tree payload a change carries: the cloned node of an
`insert`, `insertChild` or `replace`; other changes carry only
references to old-tree nodes. -/
def Change.newPayload : Change → Option DNode
  | .insert _ element => some element
  | .replace _ _ newElement => some newElement
  | .insertChild _ _ child _ => some child
  | _ => none

mutual
/-- All subtrees of a node, itself included. -/
def subtreesN : DNode → List DNode
  | .text i c => [.text i c]
  | .element i t a cs => .element i t a cs :: subtreesLL cs

/-- All subtrees of any node of a list. -/
def subtreesLL : List DNode → List DNode
  | [] => []
  | c :: cs => subtreesN c ++ subtreesLL cs
end

mutual
/-- All node identities of a subtree. -/
def nidsN : DNode → List Nat
  | .text i _ => [i]
  | .element i _ _ cs => i :: nidsL cs

/-- All node identities of a node list. -/
def nidsL : List DNode → List Nat
  | [] => []
  | c :: cs => nidsN c ++ nidsL cs
end

mutual
theorem nids_cloneNode_odd : ∀ (n : DNode) (x : Nat), x ∈ nidsN (cloneNode n) → x % 2 = 1
  | .text i c, x, h => by
    simp [cloneNode, nidsN] at h
    omega
  | .element i t a cs, x, h => by
    simp only [cloneNode, nidsN, List.mem_cons] at h
    rcases h with h | h
    · omega
    · exact nids_cloneNodeL_odd cs x h

theorem nids_cloneNodeL_odd : ∀ (cs : List DNode) (x : Nat), x ∈ nidsL (cloneNodeL cs) → x % 2 = 1
  | [], x, h => by simp [cloneNodeL, nidsL] at h
  | c :: cs, x, h => by
    simp only [cloneNodeL, nidsL, List.mem_append] at h
    rcases h with h | h
    · exact nids_cloneNode_odd c x h
    · exact nids_cloneNodeL_odd cs x h
end

theorem self_mem_subtreesN (n : DNode) : n ∈ subtreesN n := by
  cases n <;> simp [subtreesN]

theorem subtreesLL_mem_of : ∀ (cs : List DNode) (c : DNode), c ∈ cs →
    ∀ {t : DNode}, t ∈ subtreesN c → t ∈ subtreesLL cs := by
  intro cs
  induction cs with
  | nil => intro c hc; simp at hc
  | cons a l ih =>
    intro c hc t ht
    rcases List.mem_cons.mp hc with h | h
    · subst h
      exact List.mem_append.mpr (.inl ht)
    · exact List.mem_append.mpr (.inr (ih c h ht))

/-- A payload that is a clone of a subtree of the optional new node. -/
def PayloadFrom (newOpt : Option DNode) (op : Change) : Prop :=
  ∀ payload, Change.newPayload op = some payload →
    ∃ n t, newOpt = some n ∧ t ∈ subtreesN n ∧ payload = cloneNode t

/-- A payload that is a clone of a subtree of some node of a list. -/
def PayloadFromL (ncs : List DNode) (op : Change) : Prop :=
  ∀ payload, Change.newPayload op = some payload →
    ∃ t, t ∈ subtreesLL ncs ∧ payload = cloneNode t

theorem payloadFromL_lift (i : Nat) (t : String) (a : List (String × String))
    (cs : List DNode) (op : Change) (h : PayloadFromL cs op) :
    PayloadFrom (some (.element i t a cs)) op := by
  intro payload hp
  obtain ⟨u, hu, hc⟩ := h payload hp
  exact ⟨_, u, rfl, by simp [subtreesN, hu], hc⟩

theorem payloadFrom_lift_elem (ncs : List DNode) (c : DNode) (hc : c ∈ ncs) (op : Change)
    (h : PayloadFrom (some c) op) : PayloadFromL ncs op := by
  intro payload hp
  obtain ⟨n, u, hn, hu, hcl⟩ := h payload hp
  cases hn
  exact ⟨u, subtreesLL_mem_of ncs c hc hu, hcl⟩

theorem mem_list_of_getElem (l : List DNode) (i : Nat) (a : DNode) (h : l[i]? = some a) :
    a ∈ l := by
  obtain ⟨hi, rfl⟩ := List.getElem?_eq_some.mp h
  exact List.getElem_mem hi

theorem diff_payloads (fuel : Nat) :
    (∀ (old new : Option DNode) (path : String) (op : Change),
      op ∈ Differ.compareElementsF fuel old new path → PayloadFrom new op) ∧
    (∀ (o n : DNode) (path : String) (op : Change),
      op ∈ Differ.compareChildrenF fuel o n path → PayloadFromL n.childNodes op) ∧
    (∀ (oldCs newCs : List DNode) (parent : DNode) (path : String) (ci : StructChange)
        (op : Change),
      op ∈ Differ.handleStructuralChangeF fuel oldCs newCs parent path ci →
      PayloadFromL newCs op) ∧
    (∀ (oldCs newCs : List DNode) (path : String) (ci : StructChange) (op : Change),
      op ∈ Differ.compareRemainingChildrenF fuel oldCs newCs path ci →
      PayloadFromL newCs op) := by
  induction fuel with
  | zero =>
    refine ⟨?_, ?_, ?_, ?_⟩
    · intro old new path op hop
      simp [Differ.compareElementsF] at hop
    · intro o n path op hop
      simp [Differ.compareChildrenF] at hop
    · intro oldCs newCs parent path ci op hop
      simp [Differ.handleStructuralChangeF] at hop
    · intro oldCs newCs path ci op hop
      simp [Differ.compareRemainingChildrenF] at hop
  | succ f ih =>
    obtain ⟨ih1, ih2, ih3, ih4⟩ := ih
    have insMem : ∀ (newCs : List DNode) (path : String) (parent : Option DNode)
        (g : Nat → Nat) (op : Change) (r : List Nat),
        op ∈ (r.filterMap fun i =>
          (newCs[g i]?).map fun c => Change.insertChild path parent (cloneNode c) (g i)) →
        PayloadFromL newCs op := by
      intro newCs path parent g op r hop
      rcases List.mem_filterMap.mp hop with ⟨i, _, heq⟩
      rcases Option.map_eq_some'.mp heq with ⟨c, hc, rfl⟩
      intro payload hp
      simp only [Change.newPayload, Option.some.injEq] at hp
      subst hp
      exact ⟨c, subtreesLL_mem_of newCs c (mem_list_of_getElem _ _ _ hc)
        (self_mem_subtreesN c), rfl⟩
    refine ⟨?_, ?_, ?_, ?_⟩
    · intro old new path op hop
      match old, new with
      | none, none => simp [Differ.compareElementsF] at hop
      | none, some n =>
        simp only [Differ.compareElementsF, List.mem_singleton] at hop
        subst hop
        intro payload hp
        simp only [Change.newPayload, Option.some.injEq] at hp
        subst hp
        exact ⟨n, n, rfl, self_mem_subtreesN n, rfl⟩
      | some o, none =>
        simp only [Differ.compareElementsF, List.mem_singleton] at hop
        subst hop
        intro payload hp
        simp [Change.newPayload] at hp
      | some o, some n =>
        simp only [Differ.compareElementsF] at hop
        by_cases hnt : o.nodeType ≠ n.nodeType
        · rw [if_pos hnt] at hop
          simp only [List.mem_singleton] at hop
          subst hop
          intro payload hp
          simp only [Change.newPayload, Option.some.injEq] at hp
          subst hp
          exact ⟨n, n, rfl, self_mem_subtreesN n, rfl⟩
        · rw [if_neg hnt] at hop
          match o, n with
          | .text oi oc, .text ni nc =>
            dsimp only at hop
            by_cases hc : oc ≠ nc
            · rw [if_pos hc] at hop
              simp only [List.mem_singleton] at hop
              subst hop
              intro payload hp
              simp [Change.newPayload] at hp
            · rw [if_neg hc] at hop
              simp at hop
          | .text _ _, .element _ _ _ _ =>
            exact absurd (by simp [DNode.nodeType] : (DNode.text _ _).nodeType
              ≠ (DNode.element _ _ _ _).nodeType) hnt
          | .element _ _ _ _, .text _ _ =>
            exact absurd (by simp [DNode.nodeType] : (DNode.element _ _ _ _).nodeType
              ≠ (DNode.text _ _).nodeType) hnt
          | .element oi ot oa ocs, .element nj nt na ncs =>
            dsimp only at hop
            by_cases htag : ot ≠ nt
            · rw [if_pos htag] at hop
              simp only [List.mem_singleton] at hop
              subst hop
              intro payload hp
              simp only [Change.newPayload, Option.some.injEq] at hp
              subst hp
              exact ⟨_, _, rfl, self_mem_subtreesN _, rfl⟩
            · rw [if_neg htag] at hop
              by_cases hh : NodeUtils.isHeavyElement (some (.element oi ot oa ocs)) = true
              · rw [if_pos hh] at hop
                simp at hop
              · rw [if_neg hh] at hop
                rcases List.mem_append.mp hop with hmem | hmem
                · intro payload hp
                  by_cases hattr : NodeComparator.compareAttributes
                      (DNode.element oi ot oa ocs) (DNode.element nj nt na ncs) ≠ []
                  · rw [if_pos hattr] at hmem
                    simp only [List.mem_singleton] at hmem
                    subst hmem
                    simp [Change.newPayload] at hp
                  · rw [if_neg hattr] at hmem
                    simp at hmem
                · exact payloadFromL_lift _ _ _ _ _
                    (ih2 (.element oi ot oa ocs) (.element nj nt na ncs) _ op
                      (by simpa [DNode.childNodes] using hmem))
    · intro o n path op hop
      simp only [Differ.compareChildrenF] at hop
      rcases hsc : StructuralComparator.isSimpleInsertionOrDeletion o.childNodes n.childNodes
          with _ | sc
      · rw [hsc] at hop
        by_cases hra : StructuralComparator.shouldReplaceAllChildren o.childNodes
            n.childNodes = true
        · rw [if_pos hra] at hop
          rcases List.mem_append.mp hop with hmem | hmem
          · rcases List.mem_map.mp hmem with ⟨i, _, rfl⟩
            intro payload hp
            simp [Change.newPayload] at hp
          · exact insMem _ _ _ _ _ _ hmem
        · rw [if_neg hra] at hop
          rcases List.mem_flatMap.mp hop with ⟨i, _, hstep⟩
          rcases h1 : o.childNodes[i]? with _ | oc <;> rw [h1] at hstep <;>
            rcases h2 : n.childNodes[i]? with _ | nc <;> rw [h2] at hstep
          · simp at hstep
          · simp only [List.mem_singleton] at hstep
            subst hstep
            intro payload hp
            simp only [Change.newPayload, Option.some.injEq] at hp
            subst hp
            exact ⟨nc, subtreesLL_mem_of _ nc (mem_list_of_getElem _ _ _ h2)
              (self_mem_subtreesN nc), rfl⟩
          · simp only [List.mem_singleton] at hstep
            subst hstep
            intro payload hp
            simp [Change.newPayload] at hp
          · exact payloadFrom_lift_elem _ nc (mem_list_of_getElem _ _ _ h2) op
              (ih1 (some oc) (some nc) _ op hstep)
      · rw [hsc] at hop
        exact ih3 _ _ _ _ _ _ hop
    · intro oldCs newCs parent path ci op hop
      match ci with
      | .insertion insertPos count =>
        simp only [Differ.handleStructuralChangeF] at hop
        rcases List.mem_append.mp hop with hmem | hmem
        · exact insMem _ _ _ _ _ _ hmem
        · exact ih4 _ _ _ _ _ hmem
      | .deletion deletePos count =>
        simp only [Differ.handleStructuralChangeF] at hop
        rcases List.mem_append.mp hop with hmem | hmem
        · rcases List.mem_filterMap.mp hmem with ⟨i, _, heq⟩
          rcases Option.map_eq_some'.mp heq with ⟨c, _, rfl⟩
          intro payload hp
          simp [Change.newPayload] at hp
        · exact ih4 _ _ _ _ _ hmem
    · intro oldCs newCs path ci op hop
      match ci with
      | .insertion changePos changeCount =>
        simp only [Differ.compareRemainingChildrenF] at hop
        rcases List.mem_append.mp hop with hmem | hmem
        · rcases List.mem_flatMap.mp hmem with ⟨i, _, hstep⟩
          by_cases hskip : Differ.shouldSkipComparison oldCs[i]? newCs[i]? = true
          · rw [if_pos hskip] at hstep
            simp at hstep
          · rw [if_neg hskip] at hstep
            intro payload hp
            obtain ⟨nn, u, hn, hu, hcl⟩ := ih1 oldCs[i]? newCs[i]? _ op hstep payload hp
            exact ⟨u, subtreesLL_mem_of _ nn (mem_list_of_getElem _ _ _ hn) hu, hcl⟩
        · rcases List.mem_flatMap.mp hmem with ⟨j, _, hstep⟩
          by_cases hskip : Differ.shouldSkipComparison oldCs[changePos + j]?
              newCs[changePos + j + changeCount]? = true
          · rw [if_pos hskip] at hstep
            simp at hstep
          · rw [if_neg hskip] at hstep
            intro payload hp
            obtain ⟨nn, u, hn, hu, hcl⟩ := ih1 oldCs[changePos + j]?
              newCs[changePos + j + changeCount]? _ op hstep payload hp
            exact ⟨u, subtreesLL_mem_of _ nn (mem_list_of_getElem _ _ _ hn) hu, hcl⟩
      | .deletion changePos changeCount =>
        simp only [Differ.compareRemainingChildrenF] at hop
        rcases List.mem_append.mp hop with hmem | hmem
        · rcases List.mem_flatMap.mp hmem with ⟨i, _, hstep⟩
          by_cases hskip : Differ.shouldSkipComparison oldCs[i]? newCs[i]? = true
          · rw [if_pos hskip] at hstep
            simp at hstep
          · rw [if_neg hskip] at hstep
            intro payload hp
            obtain ⟨nn, u, hn, hu, hcl⟩ := ih1 oldCs[i]? newCs[i]? _ op hstep payload hp
            exact ⟨u, subtreesLL_mem_of _ nn (mem_list_of_getElem _ _ _ hn) hu, hcl⟩
        · rcases List.mem_flatMap.mp hmem with ⟨j, _, hstep⟩
          by_cases hskip : Differ.shouldSkipComparison oldCs[changePos + j + changeCount]?
              newCs[changePos + j]? = true
          · rw [if_pos hskip] at hstep
            simp at hstep
          · rw [if_neg hskip] at hstep
            intro payload hp
            obtain ⟨nn, u, hn, hu, hcl⟩ := ih1 oldCs[changePos + j + changeCount]?
              newCs[changePos + j]? _ op hstep payload hp
            exact ⟨u, subtreesLL_mem_of _ nn (mem_list_of_getElem _ _ _ hn) hu, hcl⟩

/-- C10: every node placed inside an emitted `insert`, `insertChild` or
`replace` change is a deep clone of a subtree of the new input tree —
never a reference into it: the clone's identities are all odd, disjoint
from the identities of any pre-existing node.  (The embedding of the
Differ is a pure function of its arguments: the source performs no
mutating DOM call, so neither input tree is modified.) -/
theorem claim10_payloads_are_fresh_clones
    (oldElement newElement : Option DNode) (path : String) (op : Change) (payload : DNode)
    (hop : op ∈ Differ.compareElements oldElement newElement path)
    (hp : Change.newPayload op = some payload) :
    ∃ n t, newElement = some n ∧ t ∈ subtreesN n ∧ payload = cloneNode t ∧
      ∀ x ∈ nidsN payload, x % 2 = 1 := by
  simp only [Differ.compareElements] at hop
  obtain ⟨n, t, hn, ht, hcl⟩ := (diff_payloads _).1 oldElement newElement path op hop payload hp
  refine ⟨n, t, hn, ht, hcl, ?_⟩
  intro x hx
  rw [hcl] at hx
  exact nids_cloneNode_odd t x hx

/-- Fixture: the new tree for the C10 witness. -/
def exWNew : DNode := .text 4 "y"

/-- C10 (witness): the theorem applied to the change list produced from
an absent old tree and the new text node with (even) identity 4; the
emitted payload is its clone with odd identity 9. -/
theorem claim10_witness :
    ∃ n t, (some exWNew : Option DNode) = some n ∧ t ∈ subtreesN n ∧
      (DNode.text 9 "y") = cloneNode t ∧ ∀ x ∈ nidsN (DNode.text 9 "y"), x % 2 = 1 :=
  claim10_payloads_are_fresh_clones none (some exWNew) "" (.insert "" (.text 9 "y"))
    (.text 9 "y") (by decide) (by decide)
